import Mathlib

/-!
# phpvm: version resolution and environment activation

A shallow embedding of the Go sources of `phpvm` (`data/versions.go`,
`cmd/install.go`, `cmd/switch.go`, `cmd/list.go`) together with theorems about
the Composer resolver, the installer and the activation engine.

Go strings are modelled as lists of characters (`Str`).  The separators the
program looks for (`.`, `/`, line feed) are single ASCII bytes, which never
occur inside a multi-byte UTF-8 sequence, so splitting a well-formed UTF-8
string by characters agrees with Go's byte-wise splitting.
-/

set_option autoImplicit false

namespace Phpvm

/-- A Go string, as its sequence of characters. -/
abbrev Str := List Char

/-- Equality of the results of a fallible call can be decided. -/
instance decEqExcept {ε α : Type} [DecidableEq ε] [DecidableEq α] : DecidableEq (Except ε α)
  | .ok a, .ok b =>
    if h : a = b then isTrue (congrArg Except.ok h)
    else isFalse (fun e => h (Except.ok.inj e))
  | .error a, .error b =>
    if h : a = b then isTrue (congrArg Except.error h)
    else isFalse (fun e => h (Except.error.inj e))
  | .ok _, .error _ => isFalse (fun e => Except.noConfusion e)
  | .error _, .ok _ => isFalse (fun e => Except.noConfusion e)

/-! ## `data/versions.go` -/

/-- The struct `PHPVersion`; `Released` is the instant of the `time.Time`, in
seconds since the Unix epoch. -/
structure PHPVersion where
  Version : Str
  Released : Int
  BinaryURLx64 : Str
  BinaryURLarm64 : Str
deriving DecidableEq, Repr

/-- The struct `ComposerVersion`; `Released` is the instant of the
`time.Time`, in seconds since the Unix epoch. -/
structure ComposerVersion where
  Version : Str
  Released : Int
  URL : Str
  MinPHPVersion : Str
  MaxPHPVersion : Str
  CompatiblePHP : List Str
deriving DecidableEq, Repr

/-- The package variable `AvailableVersions`. -/
def AvailableVersions : List PHPVersion :=
  [ { Version := "8.4.1".toList
      Released := 1732147200
      BinaryURLx64 := "https://download.herdphp.com/herd-lite/linux/x64/8.4/php".toList
      BinaryURLarm64 := "https://download.herdphp.com/herd-lite/linux/arm64/8.4/php".toList } ]

/-- The package variable `AvailableComposerVersions`. -/
def AvailableComposerVersions : List ComposerVersion :=
  [ { Version := "2.8.11".toList
      Released := 1724198400
      URL := "https://getcomposer.org/download/2.8.11/composer.phar".toList
      MinPHPVersion := "7.2.5".toList
      MaxPHPVersion := "8.4.99".toList
      CompatiblePHP := ["8.0".toList, "8.1".toList, "8.2".toList, "8.3".toList, "8.4".toList] },
    { Version := "2.7.9".toList
      Released := 1717459200
      URL := "https://getcomposer.org/download/2.7.9/composer.phar".toList
      MinPHPVersion := "7.2.5".toList
      MaxPHPVersion := "8.3.99".toList
      CompatiblePHP := ["8.0".toList, "8.1".toList, "8.2".toList, "8.3".toList] } ]

/-- Go's `strings.Split(s, sep)` for a one-character separator: the pieces of
`s` between the separators, in order.  The result is never empty
(`Split "" sep` is the one-element slice holding the empty string). -/
def Split (sep : Char) : Str → List Str
  | [] => [[]]
  | c :: cs =>
    if c = sep then [] :: Split sep cs
    else
      match Split sep cs with
      | [] => [[c]]
      | w :: ws => (c :: w) :: ws

/-- The function `extractMajorMinor`.  The two index expressions `parts[0]`
and `parts[1]` carry the proof that they are in range, so the definition being
accepted shows they cannot fail. -/
def extractMajorMinor (version : Str) : Str :=
  if h : 2 ≤ (Split '.' version).length then
    (Split '.' version)[0] ++ '.' :: (Split '.' version)[1]
  else version

/-- The inner loop of `GetCompatibleComposerVersion` over
`composer.CompatiblePHP`: it reports whether some element equals the key (on
the first hit the Go loop does its update and breaks). -/
def listsPHP (phpMajorMinor : Str) : List Str → Bool
  | [] => false
  | compatiblePHP :: rest =>
    if compatiblePHP = phpMajorMinor then true else listsPHP phpMajorMinor rest

/-- The outer loop of `GetCompatibleComposerVersion`, from the catalog entries
still to visit and the current `bestComposer` (`none` is the nil pointer).
`Time.After` is the strict order on instants. -/
def bestComposerLoop (phpMajorMinor : Str) :
    List ComposerVersion → Option ComposerVersion → Option ComposerVersion
  | [], bestComposer => bestComposer
  | composer :: rest, bestComposer =>
    if listsPHP phpMajorMinor composer.CompatiblePHP then
      match bestComposer with
      | none => bestComposerLoop phpMajorMinor rest (some composer)
      | some best =>
        if best.Released < composer.Released then
          bestComposerLoop phpMajorMinor rest (some composer)
        else bestComposerLoop phpMajorMinor rest (some best)
    else bestComposerLoop phpMajorMinor rest bestComposer

/-- The function `GetCompatibleComposerVersion`, with the catalog it ranges
over (the package variable `AvailableComposerVersions` in the program) as a
parameter. -/
def GetCompatibleComposerVersion (catalog : List ComposerVersion) (phpVersion : Str) :
    Option ComposerVersion :=
  bestComposerLoop (extractMajorMinor phpVersion) catalog none

/-! ## The operating system, as far as the program uses it

Paths are cleaned absolute paths, given by their components below the root.
The file system is a finite table from paths to nodes; two paths name the
same place only when they are equal (names are compared exactly, and there
are no hard links or mounts).  A path resolves only
through real directories: a symbolic link is followed when it is the last
component (as `stat` and `open` do), at most 40 times.  The kernel also
follows a symbolic link that stands for a directory in the middle of a path;
the table does not, so a state with such a link on the way to a path the
program uses lies outside what the theorems below cover (`throughRealDirs`
says that a path has no such link).

Of the permission bits one case is kept, because the program behaves
differently in it: a regular file that the process may write but not read
(`Node.unreadable`).  Every other node can be read and written, a file the
program creates can be read by it, and quotas and device errors do not occur,
so an operation fails only for a reason visible in the table. -/

/-- A cleaned absolute path: its components below the root. -/
abbrev Path := List Str

/-- What a path names. -/
inductive Node
  | dir
  /-- A regular file that the process may read and write. -/
  | file (content : Str)
  | link (target : Path)
  /-- A regular file that the process may write but not read (mode `0200`,
  say): opening it for reading fails with `EACCES`. -/
  | unreadable (content : Str)
deriving DecidableEq, Repr

/-- The file system: a finite table; the first row for a path counts. -/
abbrev FS := List (Path × Node)

/-- The failures of the system calls, and of an HTTP GET that does not
answer 200. -/
inductive OSErr
  | ENOENT
  | ENOTDIR
  | EISDIR
  | EEXIST
  | ENOTEMPTY
  | ELOOP
  | EACCES
  | http
deriving DecidableEq, Repr

/-- The row of the table for `p`, if any. -/
def nodeAt : FS → Path → Option Node
  | [], _ => none
  | (q, n) :: rest, p => if q = p then some n else nodeAt rest p

/-- Write row `p`, in place when it exists. -/
def setNode : FS → Path → Node → FS
  | [], p, n => [(p, n)]
  | (q, m) :: rest, p, n => if q = p then (q, n) :: rest else (q, m) :: setNode rest p n

/-- Delete the rows for `p`. -/
def delNode : FS → Path → FS
  | [], _ => []
  | (q, m) :: rest, p => if q = p then delNode rest p else (q, m) :: delNode rest p

/-- Whether some row lies strictly below `p`. -/
def hasChild (fs : FS) (p : Path) : Bool :=
  fs.any (fun e => p.isPrefixOf e.1 && decide (e.1 ≠ p))

/-- Walk the components `rest` below the directory `cur`.  The answer
`ok none` means that the parent directory exists and holds nothing under the
last name; a missing ancestor is `ENOENT`, an ancestor that is not a directory
is `ENOTDIR`.  The last component is not followed when it is a link.  An
ancestor that is a symbolic link is answered `ENOTDIR` as well, where the
kernel would go on from the link's target: states with such an ancestor are
outside the model (`throughRealDirs` says that a path has none). -/
def walk (fs : FS) : Path → List Str → Except OSErr (Option Node)
  | _, [] => .ok (some .dir)
  | cur, [c] => .ok (nodeAt fs (cur ++ [c]))
  | cur, c :: d :: rest =>
    match nodeAt fs (cur ++ [c]) with
    | some .dir => walk fs (cur ++ [c]) (d :: rest)
    | none => .error .ENOENT
    | some _ => .error .ENOTDIR

/-- Follow the links at the end of `p`: the place finally named, and what is
there (`none`: nothing yet, and a file can be created there). -/
def resolve (fs : FS) : Nat → Path → Except OSErr (Path × Option Node)
  | 0, _ => .error .ELOOP
  | k + 1, p =>
    match walk fs [] p with
    | .ok (some (.link t)) => resolve fs k t
    | .ok r => .ok (p, r)
    | .error e => .error e

/-- The number of links the kernel follows, plus one. -/
def maxHops : Nat := 41

/-- The call `os.Lstat`. -/
def Lstat (fs : FS) (p : Path) : Except OSErr Node :=
  match walk fs [] p with
  | .ok (some n) => .ok n
  | .ok none => .error .ENOENT
  | .error e => .error e

/-- The call `os.Stat`. -/
def Stat (fs : FS) (p : Path) : Except OSErr Node :=
  match resolve fs maxHops p with
  | .ok (_, some n) => .ok n
  | .ok (_, none) => .error .ENOENT
  | .error e => .error e

/-- The test `os.IsNotExist(err)` on the error of a `Stat`: true for `ENOENT`
only, false for a nil error and for every other error. -/
def IsNotExist : Except OSErr Node → Bool
  | .error .ENOENT => true
  | _ => false

/-- The system call `mkdir`. -/
def Mkdir (fs : FS) (p : Path) : Except OSErr FS :=
  match walk fs [] p with
  | .ok none => .ok (setNode fs p .dir)
  | .ok (some _) => .error .EEXIST
  | .error e => .error e

/-- The recursion of `os.MkdirAll`, on the reversed path (the parent of
`c :: up` is `up`): succeed at once on a directory, fail on another node,
otherwise make the parent and then the directory itself. -/
def mkdirAllRev (fs : FS) : List Str → Except OSErr FS
  | [] => .ok fs
  | c :: up =>
    match Stat fs (c :: up).reverse with
    | .ok .dir => .ok fs
    | .ok _ => .error .ENOTDIR
    | .error _ =>
      match mkdirAllRev fs up with
      | .error e => .error e
      | .ok fs1 =>
        match Mkdir fs1 (c :: up).reverse with
        | .ok fs2 => .ok fs2
        | .error e =>
          match Lstat fs1 (c :: up).reverse with
          | .ok .dir => .ok fs1
          | _ => .error e

/-- The call `os.MkdirAll`. -/
def MkdirAll (fs : FS) (p : Path) : Except OSErr FS :=
  mkdirAllRev fs p.reverse

/-- The call `os.Remove`: unlink a file or a link, remove an empty
directory. -/
def Remove (fs : FS) (p : Path) : Except OSErr FS :=
  match walk fs [] p with
  | .ok (some .dir) => if hasChild fs p then .error .ENOTEMPTY else .ok (delNode fs p)
  | .ok (some _) => .ok (delNode fs p)
  | .ok none => .error .ENOENT
  | .error e => .error e

/-- The call `os.Symlink(target, p)`. -/
def Symlink (fs : FS) (target p : Path) : Except OSErr FS :=
  match walk fs [] p with
  | .ok none => .ok (setNode fs p (.link target))
  | .ok (some _) => .error .EEXIST
  | .error e => .error e

/-- The call `os.WriteFile`: open `p` with `O_WRONLY|O_CREATE|O_TRUNC` and
write `data`.  A file that cannot be read can still be written. -/
def WriteFile (fs : FS) (p : Path) (data : Str) : Except OSErr FS :=
  match resolve fs maxHops p with
  | .ok (q, none) => .ok (setNode fs q (.file data))
  | .ok (q, some (.file _)) => .ok (setNode fs q (.file data))
  | .ok (q, some (.unreadable _)) => .ok (setNode fs q (.unreadable data))
  | .ok (_, some .dir) => .error .EISDIR
  | .ok (_, some (.link _)) => .error .ELOOP
  | .error e => .error e

/-- The call `os.Create` followed by a complete `io.Copy` of `data`: open `p`
with `O_RDWR|O_CREATE|O_TRUNC`, which a file that cannot be read refuses. -/
def Create (fs : FS) (p : Path) (data : Str) : Except OSErr FS :=
  match resolve fs maxHops p with
  | .ok (q, none) => .ok (setNode fs q (.file data))
  | .ok (q, some (.file _)) => .ok (setNode fs q (.file data))
  | .ok (_, some (.unreadable _)) => .error .EACCES
  | .ok (_, some .dir) => .error .EISDIR
  | .ok (_, some (.link _)) => .error .ELOOP
  | .error e => .error e

/-- The call `os.Chmod(p, 0755)`: it needs the file to exist.  The program
makes it only on a file that `downloadFile` has just created or truncated,
which can be read already, so the table stays as it is. -/
def Chmod (fs : FS) (p : Path) : Option OSErr :=
  match Stat fs p with
  | .ok _ => none
  | .error e => some e

/-- The step of `filepath.Clean` on a rooted path, with the components kept
so far in reverse: empty and `.` components vanish, `..` removes the
component before it and is dropped at the root. -/
def cleanStep (stack : List Str) (c : Str) : List Str :=
  if c = [] ∨ c = ['.'] then stack
  else if c = ['.', '.'] then stack.tail
  else c :: stack

/-- The function `filepath.Clean` on a rooted path. -/
def Clean (comps : List Str) : Path :=
  (comps.foldl cleanStep []).reverse

/-- The function `filepath.Join(base, elems...)` below an absolute base. -/
def Join (base : Path) (elems : List Str) : Path :=
  Clean (base ++ elems.flatMap (Split '/'))

/-- A path as the string the program prints and writes. -/
def render : Path → Str
  | [] => ['/']
  | c :: rest => ('/' :: c) ++ (if rest = [] then [] else render rest)

/-- What the program finds around it and does not change. -/
structure Env where
  /-- The value of `os.UserHomeDir()`: `none` when `$HOME` is not set.  The
  value is an absolute path; a relative `$HOME` is outside the model. -/
  home : Option Path
  /-- The value of `os.TempDir()`. -/
  tmp : Path
  /-- The constant `runtime.GOARCH`. -/
  arch : Str
  /-- The body a GET of the URL answers with status 200, if it does. -/
  net : Str → Option Str
  /-- Whether the `/bin/bash` run of the source script exits with 0. -/
  bashOk : Bool
  /-- The package variable `data.AvailableVersions`. -/
  phpCatalog : List PHPVersion
  /-- The package variable `data.AvailableComposerVersions`. -/
  composerCatalog : List ComposerVersion

/-- What the program changes: the file system, and the URLs it has asked the
network for (latest first). -/
structure World where
  fs : FS
  fetched : List Str
deriving DecidableEq, Repr

/-- The error values the commands return, one per `fmt.Errorf` site. -/
inductive Err
  | homeDir
  | versionNotFound (version : Str)
  | unsupportedArch (arch : Str)
  | createInstallDir (e : OSErr)
  | downloadPHP (e : OSErr)
  | chmodPHP (e : OSErr)
  | noCompatibleComposer (phpVersion : Str)
  | createComposerDir (e : OSErr)
  | downloadComposer (e : OSErr)
  | chmodComposer (e : OSErr)
  | composerScript (e : OSErr)
  | notInstalled (version : Str)
  | createBinDir (e : OSErr)
  | removeSymlink (e : OSErr)
  | createSymlink (e : OSErr)
  | composerNotFound (composerVersion : Str) (path : Path)
  | removeComposerSymlink (e : OSErr)
  | composerWrapper (e : OSErr)
  | updateConfig (file : Path) (e : OSErr)
  | createConfig (file : Path) (e : OSErr)
  | noShellConfig
  | createSourceScript (e : OSErr)
  | executeSourceScript
deriving DecidableEq, Repr

/-! ## `cmd/install.go` -/

/-- The function `downloadFile`: GET the URL, and on status 200 create the
file and copy the body into it.  A transfer that breaks off half-way is
outside the model. -/
def downloadFile (env : Env) (w : World) (url : Str) (filepath : Path) : Option OSErr × World :=
  let w1 : World := { w with fetched := url :: w.fetched }
  match env.net url with
  | none => (some .http, w1)
  | some body =>
    match Create w1.fs filepath body with
    | .error e => (some e, w1)
    | .ok fs1 => (none, { w1 with fs := fs1 })

/-- The wrapper script both `installComposer` and `createComposerSymlink`
write: `fmt.Sprintf("#!/bin/bash\n%s %s \"$@\"\n", php, phar)`. -/
def wrapperScript (php phar : Path) : Str :=
  "#!/bin/bash\n".toList ++ render php ++ ' ' :: render phar ++ " \"$@\"\n".toList

/-- The function `installComposer`. -/
def installComposer (env : Env) (w : World) (phpVersion : Str) (phpInstallDir : Path) :
    Option Err × World :=
  match GetCompatibleComposerVersion env.composerCatalog phpVersion with
  | none => (some (.noCompatibleComposer phpVersion), w)
  | some composerVersion =>
    match env.home with
    | none => (some .homeDir, w)
    | some homeDir =>
      let composerBaseDir := Join homeDir [".phpvm".toList, "composer".toList]
      let composerVersionDir := Join composerBaseDir [composerVersion.Version]
      match MkdirAll w.fs composerVersionDir with
      | .error e => (some (.createComposerDir e), w)
      | .ok fs1 =>
        let w1 : World := { w with fs := fs1 }
        let composerPharPath := Join composerVersionDir ["composer.phar".toList]
        let fetchedPhar : Option Err × World :=
          match Stat fs1 composerPharPath with
          | .ok _ => (none, w1)
          | .error _ =>
            match downloadFile env w1 composerVersion.URL composerPharPath with
            | (some e, w2) => (some (.downloadComposer e), w2)
            | (none, w2) =>
              match Chmod w2.fs composerPharPath with
              | some e => (some (.chmodComposer e), w2)
              | none => (none, w2)
        match fetchedPhar with
        | (some e, w2) => (some e, w2)
        | (none, w2) =>
          let composerScript := Join phpInstallDir ["composer".toList]
          let scriptContent := wrapperScript (Join phpInstallDir ["php".toList]) composerPharPath
          match WriteFile w2.fs composerScript scriptContent with
          | .error e => (some (.composerScript e), w2)
          | .ok fs3 => (none, { w2 with fs := fs3 })

/-- The lookup loop at the head of `installPHP`: the first catalog entry whose
`Version` is the one asked for. -/
def findVersion (version : Str) : List PHPVersion → Option PHPVersion
  | [] => none
  | v :: rest => if v.Version = version then some v else findVersion version rest

/-- The function `installPHP`, with the step that installs the companion tool
(`installComposer` in the program) as a parameter.  The result is the error
returned (`none` is nil) and the world afterwards; whatever the tool step
returns is only printed. -/
def installPHPWith (composerStep : World → Str → Path → Option Err × World)
    (env : Env) (w : World) (version : Str) : Option Err × World :=
  match findVersion version env.phpCatalog with
  | none => (some (.versionNotFound version), w)
  | some phpVersion =>
    let binaryURL : Option Str :=
      if env.arch = "amd64".toList then some phpVersion.BinaryURLx64
      else if env.arch = "arm64".toList then some phpVersion.BinaryURLarm64
      else none
    match binaryURL with
    | none => (some (.unsupportedArch env.arch), w)
    | some binaryURL =>
      match env.home with
      | none => (some .homeDir, w)
      | some homeDir =>
        let installDir := Join homeDir [".phpvm".toList, "versions".toList, version]
        let phpBinary := Join installDir ["php".toList]
        match Stat w.fs phpBinary with
        | .ok _ =>
          let composerScript := Join installDir ["composer".toList]
          match Stat w.fs composerScript with
          | .error _ => (none, (composerStep w phpVersion.Version installDir).2)
          | .ok _ => (none, w)
        | .error _ =>
          match MkdirAll w.fs installDir with
          | .error e => (some (.createInstallDir e), w)
          | .ok fs1 =>
            match downloadFile env { w with fs := fs1 } binaryURL phpBinary with
            | (some e, w2) => (some (.downloadPHP e), w2)
            | (none, w2) =>
              match Chmod w2.fs phpBinary with
              | some e => (some (.chmodPHP e), w2)
              | none => (none, (composerStep w2 phpVersion.Version installDir).2)

/-- The function `installPHP`. -/
def installPHP (env : Env) (w : World) (version : Str) : Option Err × World :=
  installPHPWith (installComposer env) env w version

/-! ## `cmd/switch.go` -/

/-- The function `createComposerSymlink`. -/
def createComposerSymlink (env : Env) (fs : FS) (phpVersion : Str) (binDir : Path) :
    Option Err × FS :=
  match GetCompatibleComposerVersion env.composerCatalog phpVersion with
  | none => (some (.noCompatibleComposer phpVersion), fs)
  | some composerVersion =>
    match env.home with
    | none => (some .homeDir, fs)
    | some homeDir =>
      let composerPharPath :=
        Join homeDir [".phpvm".toList, "composer".toList, composerVersion.Version,
          "composer.phar".toList]
      if IsNotExist (Stat fs composerPharPath) then
        (some (.composerNotFound composerVersion.Version composerPharPath), fs)
      else
        let composerSymlinkPath := Join binDir ["composer".toList]
        let removed : Except OSErr FS :=
          match Lstat fs composerSymlinkPath with
          | .ok _ => Remove fs composerSymlinkPath
          | .error _ => .ok fs
        match removed with
        | .error e => (some (.removeComposerSymlink e), fs)
        | .ok fs1 =>
          let phpBinaryPath := Join binDir ["php".toList]
          let scriptContent := wrapperScript phpBinaryPath composerPharPath
          match WriteFile fs1 composerSymlinkPath scriptContent with
          | .error e => (some (.composerWrapper e), fs1)
          | .ok fs2 => (none, fs2)

/-- The first of the given shell configuration files that `os.Stat` finds. -/
def firstConfig (fs : FS) : List Path → Option Path
  | [] => none
  | config :: rest =>
    match Stat fs config with
    | .ok _ => some config
    | .error _ => firstConfig fs rest

/-- The text of the script `createAndExecuteSourceScript` writes. -/
def sourceScript (configFile : Path) (binDir : Str) : Str :=
  "#!/bin/bash\n# Auto-generated script by phpvm to apply PATH changes\nsource \"".toList
    ++ render configFile ++ "\"\nexport PATH=\"".toList ++ binDir
    ++ ":$PATH\"\necho \"PHP version after applying changes:\"\nphp --version 2>/dev/null || echo \"PHP not found in PATH\"\n".toList

/-- The function `createAndExecuteSourceScript`.  What the shell it spawns
does to the file system is outside the model; the error of the final
`os.Remove` is ignored, as in the program. -/
def createAndExecuteSourceScript (env : Env) (fs : FS) (binDir : Str) : Option Err × FS :=
  match env.home with
  | none => (some .homeDir, fs)
  | some homeDir =>
    let shellConfigs :=
      [Join homeDir [".zshrc".toList], Join homeDir [".bashrc".toList],
        Join homeDir [".profile".toList]]
    match firstConfig fs shellConfigs with
    | none => (some .noShellConfig, fs)
    | some configFile =>
      let scriptPath := Join env.tmp ["phpvm_source.sh".toList]
      match WriteFile fs scriptPath (sourceScript configFile binDir) with
      | .error e => (some (.createSourceScript e), fs)
      | .ok fs1 =>
        let fs2 : FS :=
          match Remove fs1 scriptPath with
          | .ok fs2 => fs2
          | .error _ => fs1
        if env.bashOk then (none, fs2) else (some .executeSourceScript, fs2)

/-- The line `fmt.Sprintf("export PATH=\"%s:$PATH\"", binDir)`. -/
def pathExport (binDir : Str) : Str :=
  "export PATH=\"".toList ++ binDir ++ ":$PATH\"".toList

/-- The line `fmt.Sprintf("export PATH='%s:$PATH'", binDir)`. -/
def pathExportSingle (binDir : Str) : Str :=
  "export PATH='".toList ++ binDir ++ ":$PATH'".toList

/-- The line `fmt.Sprintf("export PATH=%s:$PATH", binDir)`. -/
def pathExportBare (binDir : Str) : Str :=
  "export PATH=".toList ++ binDir ++ ":$PATH".toList

/-- The constant `phpvmComment`. -/
def phpvmComment : Str := "# Added by phpvm".toList

/-- Go's `unicode.IsSpace`. -/
def isSpace (c : Char) : Bool :=
  let n := c.toNat
  n = 9 || n = 10 || n = 11 || n = 12 || n = 13 || n = 32 || n = 0x85 || n = 0xA0
    || n = 0x1680 || (0x2000 ≤ n && n ≤ 0x200a) || n = 0x2028 || n = 0x2029 || n = 0x202f
    || n = 0x205f || n = 0x3000

/-- Go's `strings.TrimSpace`. -/
def TrimSpace (s : Str) : Str :=
  ((s.dropWhile isSpace).reverse.dropWhile isSpace).reverse

/-- The helper `dropCR` of `bufio.ScanLines`: a final carriage return goes. -/
def dropCR (line : Str) : Str :=
  if line.getLast? = some '\r' then line.dropLast else line

/-- The length of a string in bytes. -/
def byteLen (s : Str) : Nat :=
  (s.map Char.utf8Size).sum

/-- The constant `bufio.MaxScanTokenSize`. -/
def MaxScanTokenSize : Nat := 65536

/-- The text between the line feeds of a file; a file that ends in a line
feed (or is empty) has no further, empty line. -/
def rawLines (content : Str) : List Str :=
  let pieces := Split '\n' content
  if pieces.getLast? = some [] then pieces.dropLast else pieces

/-- The tokens a default `bufio.Scanner` delivers for a file: its lines
without the end-of-line marker, up to the first line that does not fit the
scanner's buffer (there `Scan` returns false for good). -/
def scanLines (content : Str) : List Str :=
  ((rawLines content).takeWhile (fun line => decide (byteLen line < MaxScanTokenSize))).map dropCR

/-- The test in the loop of `isPathAlreadyAdded`. -/
def isExportLine (binDir : Str) (text : Str) : Bool :=
  let line := TrimSpace text
  decide (line = pathExport binDir) || decide (line = pathExportSingle binDir)
    || decide (line = pathExportBare binDir)

/-- The function `isPathAlreadyAdded`.  When `os.Open` fails (the path leads
nowhere, or to a file the process may not read) the function returns false;
reading a directory fails, so there the scanner delivers nothing. -/
def isPathAlreadyAdded (fs : FS) (configFile : Path) (binDir : Str) : Bool :=
  match Stat fs configFile with
  | .ok (.file content) => (scanLines content).any (isExportLine binDir)
  | .ok (.unreadable _) => false
  | _ => false

/-- The function `appendToFile`: open with `O_APPEND|O_CREATE|O_WRONLY`
(which does not need the file to be readable), write a line feed first when
the file is not empty, then the comment and the content, each on a line. -/
def appendToFile (fs : FS) (filename : Path) (comment content : Str) : Except OSErr FS :=
  match resolve fs maxHops filename with
  | .ok (q, none) => .ok (setNode fs q (.file (comment ++ '\n' :: content ++ ['\n'])))
  | .ok (q, some (.file old)) =>
    .ok (setNode fs q (.file
      (old ++ (if old = [] then [] else ['\n']) ++ (comment ++ '\n' :: content ++ ['\n']))))
  | .ok (q, some (.unreadable old)) =>
    .ok (setNode fs q (.unreadable
      (old ++ (if old = [] then [] else ['\n']) ++ (comment ++ '\n' :: content ++ ['\n']))))
  | .ok (_, some .dir) => .error .EISDIR
  | .ok (_, some (.link _)) => .error .ELOOP
  | .error e => .error e

/-- The state of the loop of `addToPath` over the configuration files. -/
structure PathLoop where
  fs : FS
  updated : Bool
  pathAlreadyExists : Bool
deriving DecidableEq, Repr

/-- The loop of `addToPath` over the configuration files still to visit; an
error of `appendToFile` ends the function at once (what was appended before
stays). -/
def addToPathLoop (binDir : Str) : List Path → PathLoop → Option Err × PathLoop
  | [], st => (none, st)
  | configFile :: rest, st =>
    if IsNotExist (Stat st.fs configFile) then addToPathLoop binDir rest st
    else if isPathAlreadyAdded st.fs configFile binDir then
      addToPathLoop binDir rest { st with pathAlreadyExists := true }
    else
      match appendToFile st.fs configFile phpvmComment (pathExport binDir) with
      | .error e => (some (.updateConfig configFile e), st)
      | .ok fs1 => addToPathLoop binDir rest { st with fs := fs1, updated := true }

/-- The list `shellConfigs` of `addToPath`. -/
def shellConfigs (homeDir : Path) : List Path :=
  [Join homeDir [".bashrc".toList], Join homeDir [".zshrc".toList],
    Join homeDir [".profile".toList]]

/-- The function `addToPath`: the pair it returns and the file system
afterwards. -/
def addToPath (env : Env) (fs : FS) (binDir : Str) : (Bool × Option Err) × FS :=
  match env.home with
  | none => ((false, some .homeDir), fs)
  | some homeDir =>
    match addToPathLoop binDir (shellConfigs homeDir)
        { fs := fs, updated := false, pathAlreadyExists := false } with
    | (some e, st) => ((false, some e), st.fs)
    | (none, st) =>
      if st.pathAlreadyExists then ((false, none), st.fs)
      else if !st.updated then
        let defaultConfig := Join homeDir [".bashrc".toList]
        match appendToFile st.fs defaultConfig phpvmComment (pathExport binDir) with
        | .error e => ((false, some (.createConfig defaultConfig e)), st.fs)
        | .ok fs1 => ((true, none), fs1)
      else ((st.updated, none), st.fs)

/-- The function `setVersion`, with the step that links the companion tool
(`createComposerSymlink` in the program) as a parameter; whatever that step,
`addToPath` and `createAndExecuteSourceScript` return is only printed. -/
def setVersionWith (composerLink : FS → Str → Path → Option Err × FS)
    (env : Env) (fs : FS) (version : Str) : Option Err × FS :=
  match env.home with
  | none => (some .homeDir, fs)
  | some homeDir =>
    let versionDir := Join homeDir [".phpvm".toList, "versions".toList, version]
    let phpBinary := Join versionDir ["php".toList]
    if IsNotExist (Stat fs phpBinary) then (some (.notInstalled version), fs)
    else
      let binDir := Join homeDir [".phpvm".toList, "bin".toList]
      match MkdirAll fs binDir with
      | .error e => (some (.createBinDir e), fs)
      | .ok fs1 =>
        let symlinkPath := Join binDir ["php".toList]
        let removed : Except OSErr FS :=
          match Lstat fs1 symlinkPath with
          | .ok _ => Remove fs1 symlinkPath
          | .error _ => .ok fs1
        match removed with
        | .error e => (some (.removeSymlink e), fs1)
        | .ok fs2 =>
          match Symlink fs2 phpBinary symlinkPath with
          | .error e => (some (.createSymlink e), fs2)
          | .ok fs3 =>
            let fs4 := (composerLink fs3 version binDir).2
            match addToPath env fs4 (render binDir) with
            | ((_, some _), fs5) => (none, fs5)
            | ((true, none), fs5) => (none, (createAndExecuteSourceScript env fs5 (render binDir)).2)
            | ((false, none), fs5) => (none, fs5)

/-- The function `setVersion`. -/
def setVersion (env : Env) (fs : FS) (version : Str) : Option Err × FS :=
  setVersionWith (createComposerSymlink env) env fs version

/-! ## `cmd/list.go` -/

/-- The function `isVersionInstalled`. -/
def isVersionInstalled (env : Env) (fs : FS) (version : Str) : Bool :=
  match env.home with
  | none => false
  | some homeDir =>
    let versionDir := Join homeDir [".phpvm".toList, "versions".toList, version]
    let phpBinary := Join versionDir ["php".toList]
    if IsNotExist (Stat fs phpBinary) then false else true

/-! ## Notions used to state the properties -/

/-- Two nodes of the same kind: two directories, two readable files or two
unreadable files (whatever they hold), or two links to the same target. -/
def sameKind : Node → Node → Prop
  | .dir, .dir => True
  | .file _, .file _ => True
  | .link t, .link u => t = u
  | .unreadable _, .unreadable _ => True
  | _, _ => False

/-- The file system `fs2` keeps every row of `fs1`, up to the content of
files: nothing was removed and nothing changed its kind. -/
def Extends (fs1 fs2 : FS) : Prop :=
  ∀ p n, nodeAt fs1 p = some n → ∃ n2, nodeAt fs2 p = some n2 ∧ sameKind n n2

/-- The directory `installDir` of `installPHP` (`versionDir` in `setVersion`
and `isVersionInstalled`): `<home>/.phpvm/versions/<version>`. -/
def installDirOf (homeDir : Path) (version : Str) : Path :=
  Join homeDir [".phpvm".toList, "versions".toList, version]

/-- The path `phpBinary` of `installPHP`, `setVersion` and
`isVersionInstalled`: `<home>/.phpvm/versions/<version>/php`. -/
def phpBinaryOf (homeDir : Path) (version : Str) : Path :=
  Join (installDirOf homeDir version) ["php".toList]

/-- The path `composerScript` of `installPHP`:
`<home>/.phpvm/versions/<version>/composer`. -/
def composerScriptOf (homeDir : Path) (version : Str) : Path :=
  Join (installDirOf homeDir version) ["composer".toList]

/-- The directory `binDir` of `setVersion`: `<home>/.phpvm/bin`. -/
def binDirOf (homeDir : Path) : Path :=
  Join homeDir [".phpvm".toList, "bin".toList]

/-- The path `symlinkPath` of `setVersion`, the activation pointer:
`<home>/.phpvm/bin/php`. -/
def pointerOf (homeDir : Path) : Path :=
  Join (binDirOf homeDir) ["php".toList]

/-- Some line of `content` is, after `dropCR` and `TrimSpace`, one of the
three forms of the export line that `isPathAlreadyAdded` recognises. -/
def mentionsExport (binDir content : Str) : Bool :=
  (Split '\n' content).any (fun l => isExportLine binDir (dropCR l))

/-- What a file that held `old` holds after `appendToFile` has added the
comment and the export line. -/
def appended (old : Str) (binDir : Str) : Str :=
  old ++ (if old = [] then [] else ['\n'])
    ++ (phpvmComment ++ '\n' :: pathExport binDir ++ ['\n'])

/-- The test `err == nil` that `installPHP` makes on `os.Stat(phpBinary)`
before anything else touches the disk: whether it takes the branch "already
installed". -/
def alreadyInstalled (fs : FS) (homeDir : Path) (version : Str) : Bool :=
  match Stat fs (phpBinaryOf homeDir version) with
  | .ok _ => true
  | .error _ => false

/-! ## Concrete machines for the examples -/

/-- The home directory `/home/dev`. -/
def devHome : Path := ["home".toList, "dev".toList]

/-- A network that serves the given bodies and nothing else. -/
def netOf (table : List (Str × Str)) (url : Str) : Option Str :=
  (table.find? (fun row => decide (row.1 = url))).map (fun row => row.2)

/-- An amd64 Linux machine with the shipped catalogs, `$HOME` at `/home/dev`,
and the given network. -/
def devEnv (net : Str → Option Str) : Env where
  home := some devHome
  tmp := ["tmp".toList]
  arch := "amd64".toList
  net := net
  bashOk := true
  phpCatalog := AvailableVersions
  composerCatalog := AvailableComposerVersions

/-- A network on which both shipped downloads succeed. -/
def fullNet : Str → Option Str :=
  netOf [("https://download.herdphp.com/herd-lite/linux/x64/8.4/php".toList, "ELF".toList),
    ("https://getcomposer.org/download/2.8.11/composer.phar".toList, "PHAR".toList)]

/-- A network on which only the PHP binary can be fetched. -/
def phpOnlyNet : Str → Option Str :=
  netOf [("https://download.herdphp.com/herd-lite/linux/x64/8.4/php".toList, "ELF".toList)]

/-- A network on which every download fails. -/
def noNet : Str → Option Str :=
  netOf []

/-- A fresh machine: the home directory and `/tmp`, nothing else. -/
def freshFS : FS :=
  [(["home".toList], .dir), (devHome, .dir), (["tmp".toList], .dir)]

/-- A machine on which `~/.phpvm/versions/8.4.1` is a regular file, so that
nothing can exist at `~/.phpvm/versions/8.4.1/php`. -/
def blockedFS : FS :=
  freshFS ++
    [(devHome ++ [".phpvm".toList], .dir),
      (devHome ++ [".phpvm".toList, "versions".toList], .dir),
      (devHome ++ [".phpvm".toList, "versions".toList, "8.4.1".toList], .file [])]

/-- A machine with PHP 8.4.1 installed and active. -/
def activeFS : FS :=
  freshFS ++
    [(devHome ++ [".phpvm".toList], .dir),
      (devHome ++ [".phpvm".toList, "versions".toList], .dir),
      (devHome ++ [".phpvm".toList, "versions".toList, "8.4.1".toList], .dir),
      (devHome ++ [".phpvm".toList, "versions".toList, "8.4.1".toList, "php".toList],
        .file "ELF".toList),
      (devHome ++ [".phpvm".toList, "bin".toList], .dir),
      (devHome ++ [".phpvm".toList, "bin".toList, "php".toList],
        .link (devHome ++ [".phpvm".toList, "versions".toList, "8.4.1".toList, "php".toList]))]

/-- The text `/home/dev/.phpvm/bin`, the `binDir` of `setVersion` on the
example machine. -/
def devBin : Str := "/home/dev/.phpvm/bin".toList

/-- A `.bashrc` that phpvm has already extended. -/
def doneBashrc : Str :=
  "# Added by phpvm\nexport PATH=\"/home/dev/.phpvm/bin:$PATH\"\n".toList

/-- A `.zshrc` that does not mention phpvm. -/
def plainZshrc : Str := "alias ll='ls -l'\n".toList

/-- A machine whose `.bashrc` has the export and whose `.zshrc` has not. -/
def mixedShellFS : FS :=
  freshFS ++
    [(devHome ++ [".bashrc".toList], .file doneBashrc),
      (devHome ++ [".zshrc".toList], .file plainZshrc)]

/-- A machine with PHP 8.3.0 and 8.4.1 installed by hand, 8.3.0 active. -/
def twoVersionsFS : FS :=
  freshFS ++
    [(devHome ++ [".phpvm".toList], .dir),
      (devHome ++ [".phpvm".toList, "versions".toList], .dir),
      (devHome ++ [".phpvm".toList, "versions".toList, "8.3.0".toList], .dir),
      (devHome ++ [".phpvm".toList, "versions".toList, "8.3.0".toList, "php".toList],
        .file "ELF 8.3".toList),
      (devHome ++ [".phpvm".toList, "versions".toList, "8.4.1".toList], .dir),
      (devHome ++ [".phpvm".toList, "versions".toList, "8.4.1".toList, "php".toList],
        .file "ELF 8.4".toList),
      (devHome ++ [".phpvm".toList, "bin".toList], .dir),
      (devHome ++ [".phpvm".toList, "bin".toList, "php".toList],
        .link (devHome ++ [".phpvm".toList, "versions".toList, "8.3.0".toList, "php".toList]))]

/-- The fresh machine before any download. -/
def freshWorld : World := { fs := freshFS, fetched := [] }

/-- A line of 65536 bytes, one more than a default `bufio.Scanner` can
hold. -/
def longLine : Str := List.replicate 65536 'x'

/-- A `.bashrc` whose first line is too long for the scanner and whose second
line is the export. -/
def longBashrc : Str := longLine ++ '\n' :: (pathExport devBin ++ ['\n'])

/-- A machine whose only startup file holds `content`. -/
def bashrcOnlyFS (content : Str) : FS :=
  freshFS ++ [(devHome ++ [".bashrc".toList], .file content)]

/-- A machine whose only startup file is a `.bashrc` that already has the
export and that the process may write but not read. -/
def lockedShellFS : FS :=
  freshFS ++ [(devHome ++ [".bashrc".toList], .unreadable doneBashrc)]

/-- A runtime catalog whose entry for 8.4.1 has a download URL for arm64 and
an empty one for amd64. -/
def armOnlyCatalog : List PHPVersion :=
  [ { Version := "8.4.1".toList
      Released := 1732147200
      BinaryURLx64 := []
      BinaryURLarm64 := "https://download.herdphp.com/herd-lite/linux/arm64/8.4/php".toList } ]

/-- The amd64 machine of `devEnv` with the catalog `armOnlyCatalog`. -/
def armOnlyEnv : Env := { devEnv fullNet with phpCatalog := armOnlyCatalog }

/-- The machine of `devEnv` on the architecture `riscv64`. -/
def riscvEnv : Env := { devEnv fullNet with arch := "riscv64".toList }

/-- A world in which `~/.phpvm/versions/8.4.1` is a regular file. -/
def blockedWorld : World := { fs := blockedFS, fetched := [] }

/-- A world with PHP 8.4.1 installed and active. -/
def activeWorld : World := { fs := activeFS, fetched := [] }

/-! ## Facts about `Split` -/

theorem Split_ne_nil (sep : Char) (s : Str) : Split sep s ≠ [] := by
  cases s with
  | nil => simp [Split]
  | cons c cs =>
    unfold Split
    split
    · simp
    · split <;> simp

theorem Split_of_not_mem (sep : Char) (s : Str) (h : sep ∉ s) : Split sep s = [s] := by
  induction s with
  | nil => simp [Split]
  | cons c cs ih =>
    have hc : c ≠ sep := fun e => h (by simp [e])
    have hcs : sep ∉ cs := fun e => h (by simp [e])
    simp [Split, hc, ih hcs]

theorem Split_append_sep (sep : Char) (a r : Str) (h : sep ∉ a) :
    Split sep (a ++ sep :: r) = a :: Split sep r := by
  induction a with
  | nil => simp [Split]
  | cons c cs ih =>
    have hc : c ≠ sep := fun e => h (by simp [e])
    have hcs : sep ∉ cs := fun e => h (by simp [e])
    simp [Split, hc, ih hcs]

theorem extractMajorMinor_of_split (s a b : Str) (rest : List Str)
    (h : Split '.' s = a :: b :: rest) : extractMajorMinor s = a ++ '.' :: b := by
  unfold extractMajorMinor
  simp [h]

theorem extractMajorMinor_of_single (s a : Str)
    (h : Split '.' s = [a]) : extractMajorMinor s = s := by
  unfold extractMajorMinor
  simp [h]

/-! ## Facts about the resolver loop -/

theorem listsPHP_iff (key : Str) (l : List Str) : listsPHP key l = true ↔ key ∈ l := by
  induction l with
  | nil => simp [listsPHP]
  | cons a l ih =>
    unfold listsPHP
    by_cases h : a = key
    · simp [h]
    · simp [h, ih]
      exact fun e => absurd e.symm h

theorem bestComposerLoop_none (key : Str) (cs : List ComposerVersion)
    (h : ∀ c ∈ cs, key ∉ c.CompatiblePHP) : bestComposerLoop key cs none = none := by
  induction cs with
  | nil => rfl
  | cons c cs ih =>
    have hc : listsPHP key c.CompatiblePHP = false := by
      rw [Bool.eq_false_iff]
      intro e
      exact h c (by simp) ((listsPHP_iff key _).1 e)
    simp [bestComposerLoop, hc]
    exact ih (fun d hd => h d (by simp [hd]))

theorem bestComposerLoop_some (key : Str) (cs : List ComposerVersion) (b : ComposerVersion) :
    ∃ r, bestComposerLoop key cs (some b) = some r
      ∧ (r = b ∨ (r ∈ cs ∧ key ∈ r.CompatiblePHP))
      ∧ b.Released ≤ r.Released
      ∧ ∀ c ∈ cs, key ∈ c.CompatiblePHP → c.Released ≤ r.Released := by
  induction cs generalizing b with
  | nil => exact ⟨b, rfl, Or.inl rfl, le_refl _, by simp⟩
  | cons c cs ih =>
    by_cases hc : listsPHP key c.CompatiblePHP = true
    · have hmem := (listsPHP_iff key _).1 hc
      by_cases hlt : b.Released < c.Released
      · obtain ⟨r, hr, hwho, hge, hall⟩ := ih c
        refine ⟨r, by simp [bestComposerLoop, hc, hlt, hr], ?_, by omega, ?_⟩
        · rcases hwho with h | h
          · exact Or.inr ⟨by simp [h], by rw [h]; exact hmem⟩
          · exact Or.inr ⟨by simp [h.1], h.2⟩
        · intro d hd hk
          rcases List.mem_cons.1 hd with h | h
          · rw [h]; exact hge
          · exact hall d h hk
      · obtain ⟨r, hr, hwho, hge, hall⟩ := ih b
        refine ⟨r, by simp [bestComposerLoop, hc, hlt, hr], ?_, hge, ?_⟩
        · rcases hwho with h | h
          · exact Or.inl h
          · exact Or.inr ⟨by simp [h.1], h.2⟩
        · intro d hd hk
          rcases List.mem_cons.1 hd with h | h
          · rw [h]; omega
          · exact hall d h hk
    · obtain ⟨r, hr, hwho, hge, hall⟩ := ih b
      have hc' : listsPHP key c.CompatiblePHP = false := by simpa using hc
      refine ⟨r, by simp [bestComposerLoop, hc', hr], ?_, hge, ?_⟩
      · rcases hwho with h | h
        · exact Or.inl h
        · exact Or.inr ⟨by simp [h.1], h.2⟩
      · intro d hd hk
        rcases List.mem_cons.1 hd with h | h
        · exact absurd ((listsPHP_iff key _).2 (h ▸ hk)) hc
        · exact hall d h hk

theorem bestComposerLoop_found (key : Str) (cs : List ComposerVersion)
    (h : ∃ c ∈ cs, key ∈ c.CompatiblePHP) :
    ∃ r, bestComposerLoop key cs none = some r ∧ r ∈ cs ∧ key ∈ r.CompatiblePHP
      ∧ ∀ c ∈ cs, key ∈ c.CompatiblePHP → c.Released ≤ r.Released := by
  induction cs with
  | nil => simp at h
  | cons c cs ih =>
    by_cases hc : listsPHP key c.CompatiblePHP = true
    · have hmem := (listsPHP_iff key _).1 hc
      obtain ⟨r, hr, hwho, hge, hall⟩ := bestComposerLoop_some key cs c
      refine ⟨r, by simp [bestComposerLoop, hc, hr], ?_, ?_, ?_⟩
      · rcases hwho with h | h
        · simp [h]
        · simp [h.1]
      · rcases hwho with h | h
        · rw [h]; exact hmem
        · exact h.2
      · intro d hd hk
        rcases List.mem_cons.1 hd with h | h
        · rw [h]; exact hge
        · exact hall d h hk
    · have hc' : listsPHP key c.CompatiblePHP = false := by simpa using hc
      obtain ⟨d, hd, hk⟩ := h
      have hd' : d ∈ cs := by
        rcases List.mem_cons.1 hd with e | e
        · exact absurd ((listsPHP_iff key _).2 (e ▸ hk)) hc
        · exact e
      obtain ⟨r, hr, hin, hkey, hall⟩ := ih ⟨d, hd', hk⟩
      refine ⟨r, by simp [bestComposerLoop, hc', hr], by simp [hin], hkey, ?_⟩
      intro x hx hxk
      rcases List.mem_cons.1 hx with e | e
      · exact absurd ((listsPHP_iff key _).2 (e ▸ hxk)) hc
      · exact hall x e hxk

/-- C1: for every catalog and every PHP version string whose major.minor key
is listed by some catalog entry, `GetCompatibleComposerVersion` returns an
entry of the catalog that lists the key and whose release date is not earlier
than that of any catalog entry listing the key; and on the shipped catalog it
returns Composer 2.8.11 for PHP 8.4.1. -/
theorem compatible_composer_is_latest :
    (∀ (catalog : List ComposerVersion) (v : Str),
      (∃ c ∈ catalog, extractMajorMinor v ∈ c.CompatiblePHP) →
      ∃ r, GetCompatibleComposerVersion catalog v = some r ∧ r ∈ catalog
        ∧ extractMajorMinor v ∈ r.CompatiblePHP
        ∧ ∀ c ∈ catalog, extractMajorMinor v ∈ c.CompatiblePHP → c.Released ≤ r.Released)
    ∧ (GetCompatibleComposerVersion AvailableComposerVersions "8.4.1".toList).map
        ComposerVersion.Version = some "2.8.11".toList := by
  refine ⟨fun catalog v h => bestComposerLoop_found _ catalog h, ?_⟩
  decide

theorem compatible_composer_is_latest_witness :
    ∃ r, GetCompatibleComposerVersion AvailableComposerVersions "8.3.7".toList = some r
      ∧ r ∈ AvailableComposerVersions
      ∧ extractMajorMinor "8.3.7".toList ∈ r.CompatiblePHP
      ∧ ∀ c ∈ AvailableComposerVersions,
          extractMajorMinor "8.3.7".toList ∈ c.CompatiblePHP → c.Released ≤ r.Released :=
  compatible_composer_is_latest.1 AvailableComposerVersions "8.3.7".toList
    ⟨AvailableComposerVersions.getLast (by decide), by decide, by decide⟩

/-- C2: for every catalog and every PHP version string (the empty string and
strings without a dot included) whose major.minor key is listed by no catalog
entry, `GetCompatibleComposerVersion` returns nil.  The function is total, and
its only index expressions are checked to be in range, so it cannot panic. -/
theorem no_compatible_composer_is_nil (catalog : List ComposerVersion) (v : Str)
    (h : ∀ c ∈ catalog, extractMajorMinor v ∉ c.CompatiblePHP) :
    GetCompatibleComposerVersion catalog v = none :=
  bestComposerLoop_none _ catalog h

theorem no_compatible_composer_is_nil_witness :
    GetCompatibleComposerVersion AvailableComposerVersions [] = none
      ∧ GetCompatibleComposerVersion AvailableComposerVersions "7".toList = none :=
  ⟨no_compatible_composer_is_nil AvailableComposerVersions [] (by decide),
    no_compatible_composer_is_nil AvailableComposerVersions "7".toList (by decide)⟩

/-- C3: `extractMajorMinor` returns a string without a dot unchanged, returns
`a.b` unchanged when `a` and `b` have no dot, and returns `a.b` for `a.b.c`
when `a` and `b` have no dot, whatever `c` is: the first two dot-separated
components joined by a dot when there are at least two, the whole string
otherwise.  In particular it maps `8.4.1` and `8.4` to `8.4`. -/
theorem extractMajorMinor_spec :
    (∀ s : Str, '.' ∉ s → extractMajorMinor s = s)
    ∧ (∀ a b : Str, '.' ∉ a → '.' ∉ b → extractMajorMinor (a ++ '.' :: b) = a ++ '.' :: b)
    ∧ (∀ a b c : Str, '.' ∉ a → '.' ∉ b →
        extractMajorMinor (a ++ '.' :: (b ++ '.' :: c)) = a ++ '.' :: b)
    ∧ extractMajorMinor "8.4.1".toList = "8.4".toList
    ∧ extractMajorMinor "8.4".toList = "8.4".toList := by
  refine ⟨?_, ?_, ?_, by decide, by decide⟩
  · intro s hs
    exact extractMajorMinor_of_single s s (Split_of_not_mem _ s hs)
  · intro a b ha hb
    exact extractMajorMinor_of_split _ a b [] (by
      rw [Split_append_sep _ a b ha, Split_of_not_mem _ b hb])
  · intro a b c ha hb
    exact extractMajorMinor_of_split _ a b (Split '.' c) (by
      rw [Split_append_sep _ a _ ha, Split_append_sep _ b c hb])

theorem extractMajorMinor_spec_witness :
    extractMajorMinor "8".toList = "8".toList
      ∧ extractMajorMinor ("10".toList ++ '.' :: "0".toList) = "10".toList ++ '.' :: "0".toList
      ∧ extractMajorMinor ("7".toList ++ '.' :: ("4".toList ++ '.' :: "33.x".toList))
          = "7".toList ++ '.' :: "4".toList :=
  ⟨extractMajorMinor_spec.1 "8".toList (by decide),
    extractMajorMinor_spec.2.1 "10".toList "0".toList (by decide) (by decide),
    extractMajorMinor_spec.2.2.1 "7".toList "4".toList "33.x".toList (by decide) (by decide)⟩

/-! ## Facts about the file-system table -/

theorem nodeAt_setNode (fs : FS) (p x : Path) (n : Node) :
    nodeAt (setNode fs p n) x = if x = p then some n else nodeAt fs x := by
  induction fs with
  | nil =>
    by_cases h : x = p
    · simp [setNode, nodeAt, h]
    · have h2 : ¬ p = x := fun e => h e.symm
      simp [setNode, nodeAt, h, h2]
  | cons e rest ih =>
    obtain ⟨q, m⟩ := e
    by_cases hq : q = p
    · by_cases h : x = p
      · simp [setNode, nodeAt, hq, h]
      · have h2 : ¬ p = x := fun e => h e.symm
        simp [setNode, nodeAt, hq, h, h2]
    · by_cases h : x = p
      · have h3 : ¬ q = x := fun e => hq (e.trans h)
        rw [h] at ih h3
        simp [setNode, nodeAt, hq, h, h3]
        simpa using ih
      · by_cases hx : q = x
        · simp [setNode, nodeAt, hq, h, hx]
        · simp [setNode, nodeAt, hq, h, hx, ih]

theorem nodeAt_delNode (fs : FS) (p x : Path) :
    nodeAt (delNode fs p) x = if x = p then none else nodeAt fs x := by
  induction fs with
  | nil => simp [delNode, nodeAt]
  | cons e rest ih =>
    obtain ⟨q, m⟩ := e
    by_cases hq : q = p
    · subst hq
      simp only [delNode, if_true]
      rw [ih]
      by_cases h : x = q
      · simp [h]
      · have h2 : ¬ q = x := fun e => h e.symm
        simp [nodeAt, h, h2]
    · simp only [delNode, hq, if_false, nodeAt]
      by_cases hx : q = x
      · subst hx
        simp [hq]
      · simp [hx, ih]

theorem hasChild_of_row (fs : FS) (p x : Path) (n : Node) (hrow : nodeAt fs x = some n)
    (hpre : p.isPrefixOf x = true) (hne : x ≠ p) : hasChild fs p = true := by
  induction fs with
  | nil => simp [nodeAt] at hrow
  | cons e rest ih =>
    obtain ⟨q, m⟩ := e
    unfold hasChild
    rw [List.any_cons]
    by_cases hq : q = x
    · subst hq
      have : decide (q ≠ p) = true := decide_eq_true hne
      rw [Bool.or_eq_true]
      left
      rw [Bool.and_eq_true]
      exact ⟨hpre, this⟩
    · have hrest : nodeAt rest x = some n := by simpa [nodeAt, hq] using hrow
      have := ih hrest
      unfold hasChild at this
      rw [this]
      simp

theorem sameKind_refl (n : Node) : sameKind n n := by
  cases n <;> simp [sameKind]

theorem sameKind_trans {a b c : Node} (h1 : sameKind a b) (h2 : sameKind b c) : sameKind a c := by
  cases a <;> cases b <;> cases c <;> simp_all [sameKind]

theorem sameKind_dir {n : Node} (h : sameKind .dir n) : n = .dir := by
  cases n <;> simp_all [sameKind]

theorem sameKind_link {n : Node} {t : Path} (h : sameKind (.link t) n) : n = .link t := by
  cases n <;> simp_all [sameKind]

theorem sameKind_file {n : Node} {c : Str} (h : sameKind (.file c) n) : ∃ d, n = .file d := by
  cases n <;> simp_all [sameKind]

theorem Extends_refl (fs : FS) : Extends fs fs :=
  fun _ n h => ⟨n, h, sameKind_refl n⟩

theorem Extends_trans {a b c : FS} (h1 : Extends a b) (h2 : Extends b c) : Extends a c := by
  intro p n h
  obtain ⟨n2, hn2, k2⟩ := h1 p n h
  obtain ⟨n3, hn3, k3⟩ := h2 p n2 hn2
  exact ⟨n3, hn3, sameKind_trans k2 k3⟩

theorem Extends_setNode_new (fs : FS) (q : Path) (n : Node) (h : nodeAt fs q = none) :
    Extends fs (setNode fs q n) := by
  intro p m hp
  have hpq : p ≠ q := fun e => by rw [e, h] at hp; cases hp
  exact ⟨m, by rw [nodeAt_setNode]; simp [hpq, hp], sameKind_refl m⟩

theorem Extends_setNode_same (fs : FS) (q : Path) (m n : Node) (h : nodeAt fs q = some m)
    (hk : sameKind m n) : Extends fs (setNode fs q n) := by
  intro p m2 hp
  by_cases hpq : p = q
  · rw [hpq, h] at hp
    cases hp
    exact ⟨n, by rw [nodeAt_setNode]; simp [hpq], hk⟩
  · exact ⟨m2, by rw [nodeAt_setNode]; simp [hpq, hp], sameKind_refl m2⟩

/-! ## Facts about path resolution -/

theorem walk_nodeAt (fs : FS) (cur : Path) (rest : List Str) (r : Option Node)
    (h : walk fs cur rest = .ok r) (hne : rest ≠ []) : nodeAt fs (cur ++ rest) = r := by
  induction rest generalizing cur with
  | nil => exact absurd rfl hne
  | cons c tl ih =>
    cases tl with
    | nil => simpa [walk] using h
    | cons d tl2 =>
      rw [walk] at h
      split at h
      · have := ih (cur ++ [c]) h (by simp)
        simpa using this
      · cases h
      · cases h

theorem walk_extends {fs1 fs2 : FS} (hext : Extends fs1 fs2) (cur : Path) (rest : List Str)
    (n : Node) (h : walk fs1 cur rest = .ok (some n)) :
    ∃ n2, walk fs2 cur rest = .ok (some n2) ∧ sameKind n n2 := by
  induction rest generalizing cur with
  | nil =>
    simp [walk] at h
    exact ⟨.dir, by simp [walk], by rw [← h]; simp [sameKind]⟩
  | cons c tl ih =>
    cases tl with
    | nil =>
      have h1 : nodeAt fs1 (cur ++ [c]) = some n := by simpa [walk] using h
      obtain ⟨n2, hn2, hk⟩ := hext _ _ h1
      exact ⟨n2, by simp [walk, hn2], hk⟩
    | cons d tl2 =>
      rw [walk] at h
      split at h
      · rename_i hdir
        obtain ⟨n2, hn2, hk⟩ := hext _ _ hdir
        have := sameKind_dir hk
        subst this
        obtain ⟨n3, hn3, hk3⟩ := ih (cur ++ [c]) h
        exact ⟨n3, by rw [walk]; simp [hn2, hn3], hk3⟩
      · cases h
      · cases h

theorem resolve_walk (fs : FS) (k : Nat) (p q : Path) (r : Option Node)
    (h : resolve fs k p = .ok (q, r)) :
    walk fs [] q = .ok r ∧ ∀ t, r ≠ some (.link t) := by
  induction k generalizing p with
  | zero => simp [resolve] at h
  | succ k ih =>
    rw [resolve] at h
    split at h
    · exact ih _ h
    · rename_i r2 hnl hw
      simp at h
      obtain ⟨h1, h2⟩ := h
      subst h1 h2
      exact ⟨hw, fun t e => hnl t e⟩
    · cases h

theorem resolve_extends {fs1 fs2 : FS} (hext : Extends fs1 fs2) (k : Nat) (p q : Path)
    (n : Node) (h : resolve fs1 k p = .ok (q, some n)) :
    ∃ n2, resolve fs2 k p = .ok (q, some n2) ∧ sameKind n n2 := by
  induction k generalizing p with
  | zero => simp [resolve] at h
  | succ k ih =>
    rw [resolve] at h
    split at h
    · rename_i t hw
      obtain ⟨n2, hn2, hk⟩ := walk_extends hext [] p _ hw
      have := sameKind_link hk
      subst this
      obtain ⟨n3, hn3, hk3⟩ := ih _ h
      exact ⟨n3, by rw [resolve]; simp [hn2, hn3], hk3⟩
    · rename_i r2 hnl hw
      simp at h
      obtain ⟨h1, h2⟩ := h
      subst h1 h2
      obtain ⟨n2, hn2, hk⟩ := walk_extends hext [] p _ hw
      refine ⟨n2, ?_, hk⟩
      rw [resolve]
      cases n2 with
      | link u =>
        have hn : n = .link u := by
          cases n <;> simp [sameKind] at hk
          rw [hk]
        exact absurd (congrArg some hn) (hnl u)
      | dir => simp [hn2]
      | file c => simp [hn2]
      | unreadable c => simp [hn2]
    · cases h

theorem Stat_extends {fs1 fs2 : FS} (hext : Extends fs1 fs2) (p : Path) (n : Node)
    (h : Stat fs1 p = .ok n) : ∃ n2, Stat fs2 p = .ok n2 ∧ sameKind n n2 := by
  unfold Stat at h
  split at h
  · rename_i q m hr
    cases h
    obtain ⟨n2, hn2, hk⟩ := resolve_extends hext _ _ _ _ hr
    exact ⟨n2, by simp [Stat, hn2], hk⟩
  · cases h
  · cases h

/-! ## Facts about the system calls -/

theorem walk_congr (fs1 fs2 : FS) (cur : Path) (rest : List Str)
    (h : ∀ pre : List Str, pre <+: rest → pre ≠ [] →
      nodeAt fs1 (cur ++ pre) = nodeAt fs2 (cur ++ pre)) :
    walk fs1 cur rest = walk fs2 cur rest := by
  induction rest generalizing cur with
  | nil => simp [walk]
  | cons c tl ih =>
    have hc : nodeAt fs1 (cur ++ [c]) = nodeAt fs2 (cur ++ [c]) :=
      h [c] (List.cons_prefix_cons.2 ⟨rfl, List.nil_prefix⟩) (by simp)
    cases tl with
    | nil => simp [walk, hc]
    | cons d tl2 =>
      rw [walk, walk, hc]
      have hrec : walk fs1 (cur ++ [c]) (d :: tl2) = walk fs2 (cur ++ [c]) (d :: tl2) := by
        apply ih
        intro pre hpre hne
        have := h (c :: pre) (List.cons_prefix_cons.2 ⟨rfl, hpre⟩) (by simp)
        simpa using this
      rw [hrec]

theorem walk_append (fs : FS) (cur : Path) (a b : List Str) (r : Option Node)
    (h : walk fs cur (a ++ b) = .ok r) (ha : a ≠ []) (hb : b ≠ []) :
    walk fs cur a = .ok (some .dir) ∧ walk fs (cur ++ a) b = .ok r := by
  induction a generalizing cur with
  | nil => exact absurd rfl ha
  | cons c tl ih =>
    cases tl with
    | nil =>
      obtain ⟨d, b2, rfl⟩ : ∃ d b2, b = d :: b2 := by
        cases b with
        | nil => exact absurd rfl hb
        | cons d b2 => exact ⟨d, b2, rfl⟩
      simp only [List.singleton_append] at h
      rw [walk] at h
      split at h
      · rename_i hdir
        exact ⟨by simp [walk, hdir], h⟩
      · cases h
      · cases h
    | cons d tl2 =>
      simp only [List.cons_append] at h
      rw [walk] at h
      split at h
      · rename_i hdir
        have := ih (cur ++ [c]) (by simpa using h) (by simp)
        refine ⟨?_, by simpa using this.2⟩
        rw [walk]
        simp [hdir, this.1]
      · cases h
      · cases h

theorem walk_setNode_self (fs : FS) (cur : Path) (rest : List Str) (r : Option Node) (n : Node)
    (h : walk fs cur rest = .ok r) (hne : rest ≠ []) :
    walk (setNode fs (cur ++ rest) n) cur rest = .ok (some n) := by
  induction rest generalizing cur with
  | nil => exact absurd rfl hne
  | cons c tl ih =>
    cases tl with
    | nil => simp [walk, nodeAt_setNode]
    | cons d tl2 =>
      rw [walk] at h
      split at h
      · rename_i hdir
        have := ih (cur ++ [c]) h (by simp)
        rw [walk, nodeAt_setNode]
        have hne2 : ¬ (cur ++ [c] = cur ++ c :: d :: tl2) := by
          intro e
          have := congrArg List.length e
          simp at this
        simp only [hne2, if_false, hdir]
        simpa using this
      · cases h
      · cases h

theorem Mkdir_extends {fs fs2 : FS} {p : Path} (h : Mkdir fs p = .ok fs2) : Extends fs fs2 := by
  unfold Mkdir at h
  split at h
  · rename_i hw
    cases h
    by_cases hp : p = []
    · subst hp
      simp [walk] at hw
    · exact Extends_setNode_new fs p .dir (by simpa using walk_nodeAt fs [] p none hw hp)
  · cases h
  · cases h

theorem mkdirAllRev_extends {fs fs2 : FS} (rp : List Str) (h : mkdirAllRev fs rp = .ok fs2) :
    Extends fs fs2 := by
  induction rp generalizing fs2 with
  | nil =>
    simp [mkdirAllRev] at h
    subst h
    exact Extends_refl fs
  | cons c up ih =>
    rw [mkdirAllRev] at h
    split at h
    · cases h
      exact Extends_refl fs
    · cases h
    · split at h
      · cases h
      · rename_i fs1 hup
        have h1 := ih hup
        split at h
        · rename_i fs3 hmk
          cases h
          exact Extends_trans h1 (Mkdir_extends hmk)
        · split at h
          · cases h
            exact h1
          · cases h

theorem MkdirAll_extends {fs fs2 : FS} {p : Path} (h : MkdirAll fs p = .ok fs2) :
    Extends fs fs2 :=
  mkdirAllRev_extends _ h

theorem Symlink_walk {fs fs2 : FS} {t p : Path} (h : Symlink fs t p = .ok fs2) :
    walk fs2 [] p = .ok (some (.link t)) := by
  unfold Symlink at h
  split at h
  · rename_i hw
    cases h
    by_cases hp : p = []
    · subst hp
      simp [walk] at hw
    · simpa using walk_setNode_self fs [] p none (.link t) hw hp
  · cases h
  · cases h

theorem resolve_ne_nil (fs : FS) (k : Nat) (p q : Path) (r : Option Node)
    (h : resolve fs k p = .ok (q, r)) (hr : r ≠ some .dir) : q ≠ [] := by
  intro hq
  subst hq
  have := (resolve_walk fs k p [] r h).1
  simp [walk] at this
  exact hr this.symm

theorem Extends_write (fs : FS) (k : Nat) (p q : Path) (r : Option Node) (n : Node)
    (h : resolve fs k p = .ok (q, r)) (hr : ∀ m, r = some m → sameKind m n)
    (hd : r ≠ some .dir) : Extends fs (setNode fs q n) := by
  have hq : q ≠ [] := resolve_ne_nil fs k p q r h hd
  have hn := walk_nodeAt fs [] q r (resolve_walk fs k p q r h).1 hq
  cases r with
  | none => exact Extends_setNode_new fs q _ (by simpa using hn)
  | some m => exact Extends_setNode_same fs q m n (by simpa using hn) (hr m rfl)

theorem WriteFile_extends {fs fs2 : FS} {p : Path} {d : Str} (h : WriteFile fs p d = .ok fs2) :
    Extends fs fs2 := by
  unfold WriteFile at h
  split at h
  · rename_i q hr
    cases h
    exact Extends_write fs _ p q none _ hr (by simp) (by simp)
  · rename_i q c hr
    cases h
    exact Extends_write fs _ p q _ _ hr (by simp [sameKind]) (by simp)
  · rename_i q c hr
    cases h
    exact Extends_write fs _ p q _ _ hr (by simp [sameKind]) (by simp)
  · cases h
  · cases h
  · cases h

theorem Create_extends {fs fs2 : FS} {p : Path} {d : Str} (h : Create fs p d = .ok fs2) :
    Extends fs fs2 := by
  unfold Create at h
  split at h
  · rename_i q hr
    cases h
    exact Extends_write fs _ p q none _ hr (by simp) (by simp)
  · rename_i q c hr
    cases h
    exact Extends_write fs _ p q _ _ hr (by simp [sameKind]) (by simp)
  · cases h
  · cases h
  · cases h
  · cases h

theorem appendToFile_extends {fs fs2 : FS} {p : Path} {a b : Str}
    (h : appendToFile fs p a b = .ok fs2) : Extends fs fs2 := by
  unfold appendToFile at h
  split at h
  · rename_i q hr
    cases h
    exact Extends_write fs _ p q none _ hr (by simp) (by simp)
  · rename_i q c hr
    cases h
    exact Extends_write fs _ p q _ _ hr (by simp [sameKind]) (by simp)
  · rename_i q c hr
    cases h
    exact Extends_write fs _ p q _ _ hr (by simp [sameKind]) (by simp)
  · cases h
  · cases h
  · cases h

theorem resolve_after_write (fs : FS) (k : Nat) (p q : Path) (r : Option Node) (n : Node)
    (h : resolve fs k p = .ok (q, r)) (hr : ∀ m, r = some m → sameKind m n)
    (hd : r ≠ some .dir) (hl : ∀ t, n ≠ .link t) :
    resolve (setNode fs q n) k p = .ok (q, some n) := by
  have hext := Extends_write fs k p q r n h hr hd
  have hq : q ≠ [] := resolve_ne_nil fs k p q r h hd
  have hwq := (resolve_walk fs k p q r h).1
  induction k generalizing p with
  | zero => simp [resolve] at h
  | succ k ih =>
    rw [resolve] at h
    split at h
    · rename_i t hw
      obtain ⟨n2, hn2, hk⟩ := walk_extends hext [] p _ hw
      have := sameKind_link hk
      subst this
      rw [resolve]
      simp only [hn2]
      exact ih _ h
    · rename_i r2 hnl hw
      simp at h
      obtain ⟨h1, h2⟩ := h
      subst h1 h2
      rw [resolve]
      have := walk_setNode_self fs [] p r2 n hw hq
      simp only [List.nil_append] at this
      rw [this]
      cases n with
      | link t => exact absurd rfl (hl t)
      | dir => rfl
      | file c => rfl
      | unreadable c => rfl
    · cases h

theorem Create_stat {fs fs2 : FS} {p : Path} {d : Str} (h : Create fs p d = .ok fs2) :
    Stat fs2 p = .ok (.file d) := by
  unfold Create at h
  split at h
  · rename_i q hr
    cases h
    simp [Stat, resolve_after_write fs _ p q none (.file d) hr (by simp) (by simp) (by simp)]
  · rename_i q c hr
    cases h
    simp [Stat, resolve_after_write fs _ p q _ (.file d) hr (by simp [sameKind]) (by simp)
      (by simp)]
  · cases h
  · cases h
  · cases h
  · cases h

theorem Remove_walk {fs fs2 : FS} {q p : Path} {n : Node} (h : Remove fs q = .ok fs2)
    (hw : walk fs [] p = .ok (some n)) (hne : p ≠ q) : walk fs2 [] p = .ok (some n) := by
  have hdel : fs2 = delNode fs q ∧ ((walk fs [] q = .ok (some .dir)) → hasChild fs q = false) := by
    unfold Remove at h
    split at h
    · rename_i hwq
      split at h
      · cases h
      · rename_i hc
        cases h
        exact ⟨rfl, fun _ => by simpa using hc⟩
    · rename_i m hnd hwq
      cases h
      refine ⟨rfl, fun e => ?_⟩
      rw [hwq] at e
      simp at e
      exact absurd e (hnd)
    · cases h
    · cases h
  obtain ⟨hfs, hchild⟩ := hdel
  subst hfs
  rw [← hw]
  apply walk_congr
  intro pre hpre hpne
  simp only [List.nil_append]
  rw [nodeAt_delNode]
  by_cases hq : pre = q
  · exfalso
    subst hq
    obtain ⟨b, hb⟩ := hpre
    have hbne : b ≠ [] := by
      intro e
      subst e
      simp at hb
      exact hne hb.symm
    have hsplit := walk_append fs [] pre b (some n) (by rw [hb]; exact hw) hpne hbne
    have hch := hchild hsplit.1
    have hp : p ≠ [] := by
      intro e
      rw [e] at hb
      simp at hb
      exact hpne hb.1
    have hrow := walk_nodeAt fs [] p (some n) hw hp
    simp only [List.nil_append] at hrow
    have := hasChild_of_row fs pre p n hrow
      (by rw [List.isPrefixOf_iff_prefix]; exact ⟨b, hb⟩) hne
    rw [hch] at this
    cases this
  · simp [hq]

/-! ## Facts about `Join` -/

theorem Clean_snoc (xs : List Str) (name : Str) (h1 : name ≠ []) (h2 : name ≠ ['.'])
    (h3 : name ≠ ['.', '.']) : Clean (xs ++ [name]) = Clean xs ++ [name] := by
  simp [Clean, List.foldl_append, cleanStep, h1, h2, h3]

theorem Join_plain (base : Path) (name : Str) (hs : Split '/' name = [name]) (h1 : name ≠ [])
    (h2 : name ≠ ['.']) (h3 : name ≠ ['.', '.']) : Join base [name] = Clean base ++ [name] := by
  simp [Join, hs, Clean_snoc _ _ h1 h2 h3]

theorem Join_php (base : Path) : Join base ["php".toList] = Clean base ++ ["php".toList] :=
  Join_plain base _ (by decide) (by decide) (by decide) (by decide)

theorem Join_composer (base : Path) :
    Join base ["composer".toList] = Clean base ++ ["composer".toList] :=
  Join_plain base _ (by decide) (by decide) (by decide) (by decide)

theorem Join_sourceScript (base : Path) :
    Join base ["phpvm_source.sh".toList] = Clean base ++ ["phpvm_source.sh".toList] :=
  Join_plain base _ (by decide) (by decide) (by decide) (by decide)

theorem snoc_ne_snoc (a b : Path) (x y : Str) (h : x ≠ y) : a ++ [x] ≠ b ++ [y] := by
  intro e
  have := congrArg List.getLast? e
  simp at this
  exact h this

/-! ## Facts about `installPHP` and `installComposer` -/

theorem downloadFile_extends (env : Env) (w : World) (url : Str) (p : Path) :
    Extends w.fs (downloadFile env w url p).2.fs := by
  unfold downloadFile
  cases hnet : env.net url with
  | none => exact Extends_refl _
  | some body =>
    cases hwr : Create w.fs p body with
    | error e => simp [hwr]; exact Extends_refl _
    | ok fs1 => simp [hwr]; exact Create_extends hwr

theorem downloadFile_stat (env : Env) (w : World) (url : Str) (p : Path)
    (h : (downloadFile env w url p).1 = none) :
    ∃ n, Stat (downloadFile env w url p).2.fs p = .ok n := by
  unfold downloadFile at h ⊢
  cases hnet : env.net url with
  | none => simp [hnet] at h
  | some body =>
    cases hwr : Create w.fs p body with
    | error e => simp [hnet, hwr] at h
    | ok fs1 => simp [hwr]; exact ⟨_, Create_stat hwr⟩

theorem installComposer_extends (env : Env) (w : World) (phpVersion : Str) (dir : Path) :
    Extends w.fs (installComposer env w phpVersion dir).2.fs := by
  unfold installComposer
  cases GetCompatibleComposerVersion env.composerCatalog phpVersion with
  | none => exact Extends_refl _
  | some cv =>
    cases env.home with
    | none => exact Extends_refl _
    | some homeDir =>
      simp only []
      cases hmk : MkdirAll w.fs
          (Join (Join homeDir [".phpvm".toList, "composer".toList]) [cv.Version]) with
      | error e => exact Extends_refl _
      | ok fs1 =>
        have h1 := MkdirAll_extends hmk
        simp only []
        cases hst : Stat fs1 (Join (Join (Join homeDir [".phpvm".toList, "composer".toList])
            [cv.Version]) ["composer.phar".toList]) with
        | ok n =>
          simp only []
          cases hwr : WriteFile fs1 (Join dir ["composer".toList])
              (wrapperScript (Join dir ["php".toList])
                (Join (Join (Join homeDir [".phpvm".toList, "composer".toList])
                  [cv.Version]) ["composer.phar".toList])) with
          | error e => exact h1
          | ok fs3 => exact Extends_trans h1 (WriteFile_extends hwr)
        | error e =>
          simp only []
          have h2 := downloadFile_extends env { w with fs := fs1 } cv.URL
            (Join (Join (Join homeDir [".phpvm".toList, "composer".toList])
              [cv.Version]) ["composer.phar".toList])
          generalize downloadFile env { w with fs := fs1 } cv.URL
            (Join (Join (Join homeDir [".phpvm".toList, "composer".toList])
              [cv.Version]) ["composer.phar".toList]) = dl at h2
          obtain ⟨de, w2⟩ := dl
          cases de with
          | some e => exact Extends_trans h1 h2
          | none =>
            simp only []
            cases Chmod w2.fs (Join (Join (Join homeDir [".phpvm".toList, "composer".toList])
              [cv.Version]) ["composer.phar".toList]) with
            | some e => exact Extends_trans h1 h2
            | none =>
              simp only []
              cases hwr : WriteFile w2.fs (Join dir ["composer".toList])
                  (wrapperScript (Join dir ["php".toList])
                    (Join (Join (Join homeDir [".phpvm".toList, "composer".toList])
                      [cv.Version]) ["composer.phar".toList])) with
              | error e => exact Extends_trans h1 h2
              | ok fs3 => exact Extends_trans (Extends_trans h1 h2) (WriteFile_extends hwr)

theorem findVersion_none (version : Str) (catalog : List PHPVersion)
    (h : ∀ e ∈ catalog, e.Version ≠ version) : findVersion version catalog = none := by
  induction catalog with
  | nil => rfl
  | cons e rest ih =>
    have he : e.Version ≠ version := h e (by simp)
    simp [findVersion, he]
    exact ih (fun d hd => h d (by simp [hd]))

theorem findVersion_some (version : Str) (catalog : List PHPVersion) (pv : PHPVersion)
    (h : findVersion version catalog = some pv) : pv.Version = version := by
  induction catalog with
  | nil => simp [findVersion] at h
  | cons e rest ih =>
    by_cases he : e.Version = version
    · simp [findVersion, he] at h
      subst h
      exact he
    · simp [findVersion, he] at h
      exact ih h

theorem installPHPWith_eq (step : World → Str → Path → Option Err × World) (env : Env)
    (w : World) (version : Str) (pv : PHPVersion) (homeDir : Path)
    (hv : findVersion version env.phpCatalog = some pv)
    (harch : env.arch = "amd64".toList ∨ env.arch = "arm64".toList)
    (hh : env.home = some homeDir) :
    installPHPWith step env w version =
      match Stat w.fs (phpBinaryOf homeDir version) with
      | .ok _ =>
        match Stat w.fs (composerScriptOf homeDir version) with
        | .error _ => (none, (step w pv.Version (installDirOf homeDir version)).2)
        | .ok _ => (none, w)
      | .error _ =>
        match MkdirAll w.fs (installDirOf homeDir version) with
        | .error e => (some (.createInstallDir e), w)
        | .ok fs1 =>
          match downloadFile env { w with fs := fs1 }
              (if env.arch = "amd64".toList then pv.BinaryURLx64 else pv.BinaryURLarm64)
              (phpBinaryOf homeDir version) with
          | (some e, w2) => (some (.downloadPHP e), w2)
          | (none, w2) =>
            match Chmod w2.fs (phpBinaryOf homeDir version) with
            | some e => (some (.chmodPHP e), w2)
            | none => (none, (step w2 pv.Version (installDirOf homeDir version)).2) := by
  unfold installPHPWith phpBinaryOf composerScriptOf installDirOf
  rw [hv, hh]
  rcases harch with ha | ha
  · simp only [ha, if_true]
  · have hne : ¬ ("arm64".toList = "amd64".toList) := by decide
    simp only [ha, hne, if_true, if_false]

theorem installPHPWith_ok_inv (step : World → Str → Path → Option Err × World) (env : Env)
    (w : World) (version : Str) (h : (installPHPWith step env w version).1 = none) :
    ∃ pv homeDir, findVersion version env.phpCatalog = some pv
      ∧ (env.arch = "amd64".toList ∨ env.arch = "arm64".toList) ∧ env.home = some homeDir := by
  unfold installPHPWith at h
  cases hv : findVersion version env.phpCatalog with
  | none => simp [hv] at h
  | some pv =>
    cases hh : env.home with
    | none =>
      by_cases ha : env.arch = "amd64".toList
      · simp only [hv, hh, if_pos ha] at h
        cases h
      · by_cases hb : env.arch = "arm64".toList
        · simp only [hv, hh, if_neg ha, if_pos hb] at h
          cases h
        · simp only [hv, hh, if_neg ha, if_neg hb] at h
          cases h
    | some homeDir =>
      by_cases ha : env.arch = "amd64".toList
      · exact ⟨pv, homeDir, rfl, Or.inl ha, rfl⟩
      · by_cases hb : env.arch = "arm64".toList
        · exact ⟨pv, homeDir, rfl, Or.inr hb, rfl⟩
        · simp only [hv, hh, if_neg ha, if_neg hb] at h
          cases h

theorem installPHPWith_result (step1 step2 : World → Str → Path → Option Err × World)
    (env : Env) (w : World) (version : Str) :
    (installPHPWith step1 env w version).1 = (installPHPWith step2 env w version).1 := by
  unfold installPHPWith
  repeat' first
    | split
    | dsimp only

theorem installPHPWith_keeps (step : World → Str → Path → Option Err × World)
    (hstep : ∀ w a b, Extends w.fs (step w a b).2.fs) (env : Env) (w : World) (version : Str)
    (homeDir : Path) (hh : env.home = some homeDir)
    (hok : (installPHPWith step env w version).1 = none) :
    ∃ n, Stat (installPHPWith step env w version).2.fs (phpBinaryOf homeDir version) = .ok n := by
  obtain ⟨pv, homeDir2, hv, harch, hh2⟩ := installPHPWith_ok_inv step env w version hok
  have : homeDir2 = homeDir := by rw [hh] at hh2; exact (Option.some.inj hh2).symm
  subst this
  rw [installPHPWith_eq step env w version pv homeDir2 hv harch hh] at hok ⊢
  cases hst : Stat w.fs (phpBinaryOf homeDir2 version) with
  | ok n =>
    simp only [hst] at hok ⊢
    cases hsc : Stat w.fs (composerScriptOf homeDir2 version) with
    | ok m => exact ⟨n, hst⟩
    | error e =>
      simp only []
      obtain ⟨n2, hn2, _⟩ := Stat_extends (hstep w pv.Version (installDirOf homeDir2 version)) _ _ hst
      exact ⟨n2, hn2⟩
  | error e =>
    simp only [hst] at hok ⊢
    cases hmk : MkdirAll w.fs (installDirOf homeDir2 version) with
    | error e2 => simp [hmk] at hok
    | ok fs1 =>
      simp only [hmk] at hok ⊢
      have hdl := downloadFile_stat env { w with fs := fs1 }
        (if env.arch = "amd64".toList then pv.BinaryURLx64 else pv.BinaryURLarm64)
        (phpBinaryOf homeDir2 version)
      generalize downloadFile env { w with fs := fs1 }
        (if env.arch = "amd64".toList then pv.BinaryURLx64 else pv.BinaryURLarm64)
        (phpBinaryOf homeDir2 version) = dl at hdl hok ⊢
      obtain ⟨de, w2⟩ := dl
      cases de with
      | some e2 => simp at hok
      | none =>
        simp only [] at hok ⊢
        obtain ⟨n, hn⟩ := hdl rfl
        cases hch : Chmod w2.fs (phpBinaryOf homeDir2 version) with
        | some e2 => simp [hch] at hok
        | none =>
          simp only []
          obtain ⟨n2, hn2, _⟩ :=
            Stat_extends (hstep w2 pv.Version (installDirOf homeDir2 version)) _ _ hn
          exact ⟨n2, hn2⟩

/-! ## Facts about `setVersion` and its helpers -/

theorem addToPathLoop_extends (binDir : Str) (configs : List Path) (st : PathLoop) :
    Extends st.fs (addToPathLoop binDir configs st).2.fs := by
  induction configs generalizing st with
  | nil => exact Extends_refl _
  | cons configFile rest ih =>
    rw [addToPathLoop]
    by_cases h1 : IsNotExist (Stat st.fs configFile) = true
    · rw [if_pos h1]
      exact ih st
    · rw [if_neg h1]
      by_cases h2 : isPathAlreadyAdded st.fs configFile binDir = true
      · rw [if_pos h2]
        exact ih { st with pathAlreadyExists := true }
      · rw [if_neg h2]
        cases happ : appendToFile st.fs configFile phpvmComment (pathExport binDir) with
        | error e => exact Extends_refl _
        | ok fs1 =>
          exact Extends_trans (appendToFile_extends happ)
            (ih { st with fs := fs1, updated := true })

theorem addToPath_extends (env : Env) (fs : FS) (binDir : Str) :
    Extends fs (addToPath env fs binDir).2 := by
  unfold addToPath
  cases hh : env.home with
  | none => exact Extends_refl _
  | some homeDir =>
    have hloop := addToPathLoop_extends binDir (shellConfigs homeDir)
      { fs := fs, updated := false, pathAlreadyExists := false }
    try dsimp only
    cases hl : addToPathLoop binDir (shellConfigs homeDir)
        { fs := fs, updated := false, pathAlreadyExists := false } with
    | mk oe st =>
      rw [hl] at hloop
      cases oe with
      | some e => exact hloop
      | none =>
        try dsimp only
        by_cases h1 : st.pathAlreadyExists = true
        · rw [if_pos h1]
          exact hloop
        · rw [if_neg h1]
          by_cases h2 : (!st.updated) = true
          · rw [if_pos h2]
            try dsimp only
            cases happ : appendToFile st.fs (Join homeDir [".bashrc".toList]) phpvmComment
                (pathExport binDir) with
            | error e => exact hloop
            | ok fs1 => exact Extends_trans hloop (appendToFile_extends happ)
          · rw [if_neg h2]
            exact hloop

theorem sourceScript_walk (env : Env) (fs : FS) (binDir : Str) (dirPart : Path) (n : Node)
    (hw : walk fs [] (dirPart ++ ["php".toList]) = .ok (some n)) :
    ∃ n2, walk (createAndExecuteSourceScript env fs binDir).2 [] (dirPart ++ ["php".toList])
        = .ok (some n2) ∧ sameKind n n2 := by
  unfold createAndExecuteSourceScript
  cases env.home with
  | none => exact ⟨n, hw, sameKind_refl n⟩
  | some homeDir =>
    try dsimp only
    cases firstConfig fs [Join homeDir [".zshrc".toList], Join homeDir [".bashrc".toList],
        Join homeDir [".profile".toList]] with
    | none => exact ⟨n, hw, sameKind_refl n⟩
    | some configFile =>
      try dsimp only
      cases hwr : WriteFile fs (Join env.tmp ["phpvm_source.sh".toList])
          (sourceScript configFile binDir) with
      | error e => exact ⟨n, hw, sameKind_refl n⟩
      | ok fs1 =>
        obtain ⟨n2, hn2, hk⟩ := walk_extends (WriteFile_extends hwr) [] _ n hw
        try dsimp only
        cases hrm : Remove fs1 (Join env.tmp ["phpvm_source.sh".toList]) with
        | error e =>
          try dsimp only
          by_cases hb : env.bashOk = true
          · rw [if_pos hb]; exact ⟨n2, hn2, hk⟩
          · rw [if_neg hb]; exact ⟨n2, hn2, hk⟩
        | ok fs2 =>
          have h3 : walk fs2 [] (dirPart ++ ["php".toList]) = .ok (some n2) := by
            refine Remove_walk hrm hn2 ?_
            rw [Join_sourceScript]
            exact snoc_ne_snoc _ _ _ _ (by decide)
          try dsimp only
          by_cases hb : env.bashOk = true
          · rw [if_pos hb]; exact ⟨n2, h3, hk⟩
          · rw [if_neg hb]; exact ⟨n2, h3, hk⟩

theorem createComposerSymlink_walk (env : Env) (fs : FS) (phpVersion : Str) (binDir : Path)
    (dirPart : Path) (n : Node)
    (hw : walk fs [] (dirPart ++ ["php".toList]) = .ok (some n)) :
    ∃ n2, walk (createComposerSymlink env fs phpVersion binDir).2 [] (dirPart ++ ["php".toList])
        = .ok (some n2) ∧ sameKind n n2 := by
  unfold createComposerSymlink
  cases GetCompatibleComposerVersion env.composerCatalog phpVersion with
  | none => exact ⟨n, hw, sameKind_refl n⟩
  | some cv =>
    try dsimp only
    cases env.home with
    | none => exact ⟨n, hw, sameKind_refl n⟩
    | some homeDir =>
      try dsimp only
      by_cases hne : IsNotExist (Stat fs (Join homeDir [".phpvm".toList, "composer".toList,
          cv.Version, "composer.phar".toList])) = true
      · rw [if_pos hne]
        exact ⟨n, hw, sameKind_refl n⟩
      · rw [if_neg hne]
        have hrem : ∀ fs1, (match Lstat fs (Join binDir ["composer".toList]) with
            | .ok _ => Remove fs (Join binDir ["composer".toList])
            | .error _ => .ok fs) = .ok fs1 →
            walk fs1 [] (dirPart ++ ["php".toList]) = .ok (some n) := by
          intro fs1 h1
          split at h1
          · refine Remove_walk h1 hw ?_
            rw [Join_composer]
            exact snoc_ne_snoc _ _ _ _ (by decide)
          · cases h1
            exact hw
        split
        · exact ⟨n, hw, sameKind_refl n⟩
        · rename_i fs1 hr
          have hw1 := hrem fs1 hr
          split
          · exact ⟨n, hw1, sameKind_refl n⟩
          · rename_i fs2 hwr
            exact walk_extends (WriteFile_extends hwr) [] _ n hw1

theorem setVersionWith_result (link1 link2 : FS → Str → Path → Option Err × FS) (env : Env)
    (fs : FS) (version : Str) :
    (setVersionWith link1 env fs version).1 = (setVersionWith link2 env fs version).1 := by
  unfold setVersionWith
  repeat' first
    | split
    | dsimp only

theorem pathStage_walk (env : Env) (fs4 : FS) (binDir : Str) (dirPart : Path) (n : Node)
    (hw : walk fs4 [] (dirPart ++ ["php".toList]) = .ok (some n)) :
    ∃ n2, walk (match addToPath env fs4 binDir with
        | ((_, some _), fs5) => ((none : Option Err), fs5)
        | ((true, none), fs5) => (none, (createAndExecuteSourceScript env fs5 binDir).2)
        | ((false, none), fs5) => (none, fs5)).2 [] (dirPart ++ ["php".toList]) = .ok (some n2)
      ∧ sameKind n n2 := by
  have hext := addToPath_extends env fs4 binDir
  rcases hr : addToPath env fs4 binDir with ⟨⟨added, oe⟩, fs5⟩
  rw [hr] at hext
  obtain ⟨n2, hn2, hk⟩ := walk_extends hext [] _ n hw
  cases added with
  | false =>
    cases oe with
    | some e => exact ⟨n2, hn2, hk⟩
    | none => exact ⟨n2, hn2, hk⟩
  | true =>
    cases oe with
    | some e => exact ⟨n2, hn2, hk⟩
    | none =>
      obtain ⟨n3, hn3, hk3⟩ := sourceScript_walk env fs5 binDir dirPart n2 hn2
      exact ⟨n3, hn3, sameKind_trans hk hk3⟩

theorem setVersionWith_ok (link : FS → Str → Path → Option Err × FS) (env : Env) (fs : FS)
    (version : Str) (hok : (setVersionWith link env fs version).1 = none) :
    ∃ homeDir fs1 fs2 fs3, env.home = some homeDir
      ∧ IsNotExist (Stat fs (phpBinaryOf homeDir version)) = false
      ∧ MkdirAll fs (binDirOf homeDir) = .ok fs1
      ∧ (match Lstat fs1 (pointerOf homeDir) with
          | .ok _ => Remove fs1 (pointerOf homeDir)
          | .error _ => .ok fs1) = .ok fs2
      ∧ Symlink fs2 (phpBinaryOf homeDir version) (pointerOf homeDir) = .ok fs3
      ∧ ∀ (dirPart : Path) (n : Node),
          (∀ m, walk fs3 [] (dirPart ++ ["php".toList]) = .ok (some m) →
            ∃ m2, walk (link fs3 version (binDirOf homeDir)).2 [] (dirPart ++ ["php".toList])
              = .ok (some m2) ∧ sameKind m m2) →
          walk fs3 [] (dirPart ++ ["php".toList]) = .ok (some n) →
          ∃ n2, walk (setVersionWith link env fs version).2 [] (dirPart ++ ["php".toList])
              = .ok (some n2) ∧ sameKind n n2 := by
  unfold setVersionWith at hok ⊢
  revert hok
  cases hh : env.home with
  | none => intro hok; cases hok
  | some homeDir =>
    intro hok
    dsimp only at hok ⊢
    by_cases hne : IsNotExist (Stat fs (Join (Join homeDir [".phpvm".toList, "versions".toList,
        version]) ["php".toList])) = true
    · rw [if_pos hne] at hok
      cases hok
    · rw [if_neg hne] at hok ⊢
      revert hok
      cases hmk : MkdirAll fs (Join homeDir [".phpvm".toList, "bin".toList]) with
      | error e => intro hok; cases hok
      | ok fs1 =>
        dsimp only
        split
        · intro hok; cases hok
        · rename_i fs2 hrm
          cases hsl : Symlink fs2 (Join (Join homeDir [".phpvm".toList, "versions".toList,
              version]) ["php".toList]) (Join (Join homeDir [".phpvm".toList, "bin".toList])
              ["php".toList]) with
          | error e => intro hok; cases hok
          | ok fs3 =>
            intro _
            refine ⟨homeDir, fs1, fs2, fs3, rfl, ?_, hmk, hrm, hsl, ?_⟩
            · cases hb : IsNotExist (Stat fs (Join (Join homeDir [".phpvm".toList,
                  "versions".toList, version]) ["php".toList])) with
              | true => exact absurd hb hne
              | false => exact hb
            · intro dirPart n hlink hw
              obtain ⟨m2, hm2, hk2⟩ := hlink n hw
              obtain ⟨n3, hn3, hk3⟩ := pathStage_walk env
                (link fs3 version (binDirOf homeDir)).2 (render (binDirOf homeDir)) dirPart m2 hm2
              exact ⟨n3, hn3, sameKind_trans hk2 hk3⟩

/-! ## Facts about lines of text -/

theorem pathExport_head (binDir : Str) :
    ∃ t, pathExport binDir = 'e' :: t := by
  exact ⟨_, by simp [pathExport]; rfl⟩

theorem pathExport_last (binDir : Str) :
    ∃ t, (pathExport binDir).reverse = '"' :: t := by
  exact ⟨_, by simp [pathExport]; rfl⟩

theorem TrimSpace_pathExport (binDir : Str) : TrimSpace (pathExport binDir) = pathExport binDir := by
  obtain ⟨t, ht⟩ := pathExport_head binDir
  obtain ⟨u, hu⟩ := pathExport_last binDir
  have h1 : isSpace 'e' = false := by decide
  have h2 : isSpace '"' = false := by decide
  unfold TrimSpace
  have e1 : (pathExport binDir).dropWhile isSpace = pathExport binDir := by
    rw [ht]
    simp [List.dropWhile, h1]
  rw [e1, hu]
  have e2 : ('"' :: u).dropWhile isSpace = '"' :: u := by
    simp [List.dropWhile, h2]
  rw [e2, ← hu, List.reverse_reverse]

theorem dropCR_pathExport (binDir : Str) : dropCR (pathExport binDir) = pathExport binDir := by
  obtain ⟨u, hu⟩ := pathExport_last binDir
  unfold dropCR
  have : (pathExport binDir).getLast? = some '"' := by
    rw [List.getLast?_eq_head?_reverse, hu]
    rfl
  rw [this]
  simp

theorem isExportLine_pathExport (binDir : Str) :
    isExportLine binDir (pathExport binDir) = true := by
  unfold isExportLine
  simp [TrimSpace_pathExport]

theorem isPathAlreadyAdded_file (fs : FS) (p : Path) (binDir c : Str)
    (h : Stat fs p = .ok (.file c)) :
    isPathAlreadyAdded fs p binDir = (scanLines c).any (isExportLine binDir) := by
  unfold isPathAlreadyAdded
  rw [h]

theorem byteLen_replicate (n : Nat) : byteLen (List.replicate n 'x') = n := by
  induction n with
  | zero => rfl
  | succ n ih =>
    have h : ('x' : Char).utf8Size = 1 := by decide
    simp only [List.replicate_succ, byteLen, List.map_cons, List.sum_cons, h] at ih ⊢
    omega

theorem scanLines_long (n : Nat) (hn : MaxScanTokenSize ≤ n) (rest : Str) :
    scanLines (List.replicate n 'x' ++ '\n' :: rest) = [] := by
  have hnl : '\n' ∉ List.replicate n 'x' := by
    intro h
    have := List.eq_of_mem_replicate h
    exact absurd this (by decide)
  have hs := Split_append_sep '\n' (List.replicate n 'x') rest hnl
  have hl : ¬ (byteLen (List.replicate n 'x') < MaxScanTokenSize) := by
    rw [byteLen_replicate]
    omega
  obtain ⟨w, ws, hw⟩ : ∃ w ws, Split '\n' rest = w :: ws := by
    cases h : Split '\n' rest with
    | nil => exact absurd h (Split_ne_nil _ _)
    | cons w ws => exact ⟨w, ws, rfl⟩
  unfold scanLines rawLines
  rw [hs, hw]
  dsimp only
  split
  · rw [List.dropLast_cons₂, List.takeWhile_cons]
    simp [hl]
  · rw [List.takeWhile_cons]
    simp [hl]

theorem scanLines_longBashrc : scanLines longBashrc = [] :=
  scanLines_long 65536 (by decide) _

theorem mentionsExport_long (n : Nat) (binDir : Str) (hnl : '\n' ∉ binDir) :
    mentionsExport binDir (List.replicate n 'x' ++ '\n' :: (pathExport binDir ++ ['\n']))
      = true := by
  have hx : '\n' ∉ List.replicate n 'x' := by
    intro h
    have := List.eq_of_mem_replicate h
    exact absurd this (by decide)
  have h2 : '\n' ∉ pathExport binDir := by
    simp only [pathExport, List.mem_append, not_or]
    exact ⟨⟨by decide, hnl⟩, by decide⟩
  unfold mentionsExport
  rw [Split_append_sep _ _ _ hx, Split_append_sep _ _ _ h2, List.any_eq_true]
  exact ⟨pathExport binDir, by simp, by rw [dropCR_pathExport, isExportLine_pathExport]⟩

theorem addToPath_bashrcOnly (c : Str)
    (hc : (scanLines c).any (isExportLine devBin) = false) :
    Stat (addToPath (devEnv fullNet) (bashrcOnlyFS c) devBin).2 (devHome ++ [".bashrc".toList])
      = .ok (.file (appended c devBin)) := by
  have hj1 : Join devHome [".bashrc".toList] = devHome ++ [".bashrc".toList] := by decide
  have hj2 : Join devHome [".zshrc".toList] = devHome ++ [".zshrc".toList] := by decide
  have hj3 : Join devHome [".profile".toList] = devHome ++ [".profile".toList] := by decide
  have h1 : Stat (bashrcOnlyFS c) (devHome ++ [".bashrc".toList]) = .ok (.file c) := rfl
  have h4 : appendToFile (bashrcOnlyFS c) (devHome ++ [".bashrc".toList]) phpvmComment
      (pathExport devBin) = .ok (bashrcOnlyFS (appended c devBin)) := rfl
  have h2 : Stat (bashrcOnlyFS (appended c devBin)) (devHome ++ [".zshrc".toList])
      = .error .ENOENT := rfl
  have h3 : Stat (bashrcOnlyFS (appended c devBin)) (devHome ++ [".profile".toList])
      = .error .ENOENT := rfl
  have h5 : Stat (bashrcOnlyFS (appended c devBin)) (devHome ++ [".bashrc".toList])
      = .ok (.file (appended c devBin)) := rfl
  have ha : isPathAlreadyAdded (bashrcOnlyFS c) (devHome ++ [".bashrc".toList]) devBin = false := by
    rw [isPathAlreadyAdded_file _ _ _ _ h1, hc]
  have hfin : (addToPath (devEnv fullNet) (bashrcOnlyFS c) devBin).2
      = bashrcOnlyFS (appended c devBin) := by
    simp only [addToPath, devEnv, shellConfigs, hj1, hj2, hj3, addToPathLoop, h1, h2, h3, h4, ha,
      IsNotExist]
    simp
  rw [hfin, h5]

/-! ## The activation engine: `setVersion` -/

/-- When `os.Stat` reports that nothing exists at
`<home>/.phpvm/versions/<v>/php`, `setVersion` returns the error "PHP version
is not installed" and leaves the file system as it was. -/
theorem setVersion_not_exist (env : Env) (fs : FS) (version : Str) (homeDir : Path)
    (hh : env.home = some homeDir)
    (hst : Stat fs (phpBinaryOf homeDir version) = .error .ENOENT) :
    setVersion env fs version = (some (.notInstalled version), fs) := by
  unfold setVersion setVersionWith
  rw [hh]
  dsimp only
  have : IsNotExist (Stat fs (Join (Join homeDir [".phpvm".toList, "versions".toList,
      version]) ["php".toList])) = true := by
    have h2 : Stat fs (Join (Join homeDir [".phpvm".toList, "versions".toList,
      version]) ["php".toList]) = .error .ENOENT := hst
    rw [h2]
    rfl
  rw [if_pos this]

set_option maxRecDepth 100000 in
/-- C4, at the failing input: `~/.phpvm/versions/8.4.1` is a regular file, so
no runtime binary is installed for 8.4.1 and `os.Stat` of
`~/.phpvm/versions/8.4.1/php` fails with `ENOTDIR`, which `os.IsNotExist` does
not recognise.  `setVersion("8.4.1")` then returns success instead of the
not-installed error, and it changes the file system: it creates
`~/.phpvm/bin` and in it an activation pointer to the missing binary. -/
theorem setVersion_unusable_binary_activates :
    Stat blockedFS (phpBinaryOf devHome "8.4.1".toList) = .error .ENOTDIR
      ∧ (setVersion (devEnv fullNet) blockedFS "8.4.1".toList).1 = none
      ∧ Lstat blockedFS (binDirOf devHome) = .error .ENOENT
      ∧ Lstat (setVersion (devEnv fullNet) blockedFS "8.4.1".toList).2 (binDirOf devHome)
          = .ok .dir
      ∧ Lstat (setVersion (devEnv fullNet) blockedFS "8.4.1".toList).2 (pointerOf devHome)
          = .ok (.link (phpBinaryOf devHome "8.4.1".toList))
      ∧ Stat (setVersion (devEnv fullNet) blockedFS "8.4.1".toList).2 (pointerOf devHome)
          = .error .ENOTDIR := by
  decide

set_option maxRecDepth 100000 in
/-- C7, at the failing input: `.bashrc` already has the export line and
`.zshrc` exists without it.  `addToPath` appends the comment and the export
line to `.zshrc`, and yet returns `false` with a nil error: its result says
that no file was modified although one was. -/
theorem addToPath_reports_false_after_append :
    Stat mixedShellFS (devHome ++ [".zshrc".toList]) = .ok (.file plainZshrc)
      ∧ (addToPath (devEnv fullNet) mixedShellFS devBin).1 = (false, none)
      ∧ Stat (addToPath (devEnv fullNet) mixedShellFS devBin).2 (devHome ++ [".zshrc".toList])
          = .ok (.file (plainZshrc
              ++ "\n# Added by phpvm\nexport PATH=\"/home/dev/.phpvm/bin:$PATH\"\n".toList))
      ∧ (addToPath (devEnv fullNet) mixedShellFS devBin).2 ≠ mixedShellFS := by
  decide

/-! ## The installation manager: `installPHP` -/

/-- C8: for a version that is the `Version` of no entry of the runtime
catalog, `installPHP` returns the error "PHP version not found" and leaves the
world as it was: no directory is created and nothing is asked of the network,
whatever the architecture, the home directory and the file system. -/
theorem installPHP_unknown_version (env : Env) (w : World) (version : Str)
    (h : ∀ e ∈ env.phpCatalog, e.Version ≠ version) :
    installPHP env w version = (some (.versionNotFound version), w) := by
  unfold installPHP installPHPWith
  rw [findVersion_none version env.phpCatalog h]

set_option maxRecDepth 100000 in
theorem installPHP_unknown_version_witness :
    installPHP (devEnv fullNet) freshWorld "9.9.9".toList
      = (some (.versionNotFound "9.9.9".toList), freshWorld) :=
  installPHP_unknown_version (devEnv fullNet) freshWorld "9.9.9".toList (by decide)

set_option maxRecDepth 100000 in
/-- C9, counterexample.  (1) On a fresh machine whose network serves the PHP
binary but not Composer, the first `installPHP("8.4.1")` returns success (the
Composer failure is only a warning) and leaves no Composer wrapper.  A second
call finds the binary, finds no wrapper, and asks the network for Composer
again: it invokes the download primitive once, not zero times.  (2) When the
network serves Composer by then, the second call installs it, so that the
on-disk state after two calls is not the state after one.  (3) When the
network is down, the first call fails at the PHP download, and the second call
asks for the PHP binary again. -/
theorem installPHP_second_call_downloads :
    ((installPHP (devEnv phpOnlyNet) freshWorld "8.4.1".toList).1 = none
        ∧ Stat (installPHP (devEnv phpOnlyNet) freshWorld "8.4.1".toList).2.fs
          (composerScriptOf devHome "8.4.1".toList) = .error .ENOENT
        ∧ (installPHP (devEnv phpOnlyNet)
            (installPHP (devEnv phpOnlyNet) freshWorld "8.4.1".toList).2 "8.4.1".toList).2.fetched
          = "https://getcomposer.org/download/2.8.11/composer.phar".toList
              :: (installPHP (devEnv phpOnlyNet) freshWorld "8.4.1".toList).2.fetched)
      ∧ Stat (installPHP (devEnv fullNet)
            (installPHP (devEnv phpOnlyNet) freshWorld "8.4.1".toList).2 "8.4.1".toList).2.fs
          (composerScriptOf devHome "8.4.1".toList)
          = .ok (.file (wrapperScript (phpBinaryOf devHome "8.4.1".toList)
              (devHome ++ [".phpvm".toList, "composer".toList, "2.8.11".toList,
                "composer.phar".toList])))
      ∧ ((installPHP (devEnv noNet) freshWorld "8.4.1".toList).1 = some (.downloadPHP .http)
        ∧ (installPHP (devEnv noNet)
            (installPHP (devEnv noNet) freshWorld "8.4.1".toList).2 "8.4.1".toList).2.fetched
          = "https://download.herdphp.com/herd-lite/linux/x64/8.4/php".toList
              :: (installPHP (devEnv noNet) freshWorld "8.4.1".toList).2.fetched) := by
  decide

/-- C9, as amended: when a first `installPHP(v)` returns success, a second
call returns success as well and does nothing but, at most, the Composer step:
it creates no directory and does not fetch the runtime again.  When the first
call moreover left the Composer wrapper `<home>/.phpvm/versions/<v>/composer`
in place, the second call (whatever the network does by then) leaves the file
system exactly as it was and asks the network for nothing: it changes nothing
and downloads nothing. -/
theorem installPHP_twice (env : Env) (net2 : Str → Option Str) (w : World) (version : Str)
    (homeDir : Path) (hh : env.home = some homeDir)
    (hok : (installPHP env w version).1 = none) :
    (installPHP { env with net := net2 } (installPHP env w version).2 version
          = (none, (installPHP env w version).2)
        ∨ installPHP { env with net := net2 } (installPHP env w version).2 version
          = (none, (installComposer { env with net := net2 } (installPHP env w version).2
              version (installDirOf homeDir version)).2))
      ∧ ∀ wrapper : Node,
          Stat (installPHP env w version).2.fs (composerScriptOf homeDir version) = .ok wrapper →
          installPHP { env with net := net2 } (installPHP env w version).2 version
            = (none, (installPHP env w version).2) := by
  obtain ⟨n, hn⟩ := installPHPWith_keeps (installComposer env)
    (fun w a b => installComposer_extends env w a b) env w version homeDir hh hok
  obtain ⟨pv, homeDir2, hv, harch, hh2⟩ :=
    installPHPWith_ok_inv (installComposer env) env w version hok
  have hpv := findVersion_some version env.phpCatalog pv hv
  have hn2 : Stat (installPHP env w version).2.fs (phpBinaryOf homeDir version) = .ok n := hn
  generalize (installPHP env w version).2 = w1 at hn2 ⊢
  have heq := installPHPWith_eq (installComposer { env with net := net2 })
    { env with net := net2 } w1 version pv homeDir hv harch hh
  rw [hn2, hpv] at heq
  constructor
  · cases hsc : Stat w1.fs (composerScriptOf homeDir version) with
    | ok m =>
      left
      unfold installPHP
      rw [heq, hsc]
    | error e =>
      right
      unfold installPHP
      rw [heq, hsc]
  · intro wrapper hwrap
    unfold installPHP
    rw [heq, hwrap]

set_option maxRecDepth 100000 in
theorem installPHP_twice_witness :
    (installPHP { devEnv phpOnlyNet with net := fullNet }
          (installPHP (devEnv phpOnlyNet) freshWorld "8.4.1".toList).2 "8.4.1".toList
        = (none, (installComposer { devEnv phpOnlyNet with net := fullNet }
            (installPHP (devEnv phpOnlyNet) freshWorld "8.4.1".toList).2 "8.4.1".toList
            (installDirOf devHome "8.4.1".toList)).2))
      ∧ installPHP { devEnv fullNet with net := phpOnlyNet }
          (installPHP (devEnv fullNet) freshWorld "8.4.1".toList).2 "8.4.1".toList
        = (none, (installPHP (devEnv fullNet) freshWorld "8.4.1".toList).2) :=
  ⟨((installPHP_twice (devEnv phpOnlyNet) fullNet freshWorld "8.4.1".toList devHome rfl
        (by decide)).1).resolve_left (by decide),
    (installPHP_twice (devEnv fullNet) phpOnlyNet freshWorld "8.4.1".toList devHome rfl
      (by decide)).2
      (.file (wrapperScript (phpBinaryOf devHome "8.4.1".toList)
        (devHome ++ [".phpvm".toList, "composer".toList, "2.8.11".toList,
          "composer.phar".toList])))
      (by decide)⟩

/-! ## Failures of the companion tool -/

/-- C10: failures of the companion tool are never fatal.  (1) Whatever the
tool step of `installPHP` does and returns, `installPHP` returns the same
error or success as with `installComposer`; (2) the same holds for `setVersion`
and `createComposerSymlink`; (3) whenever `installPHP` returns success, the
runtime binary exists afterwards, also when `installComposer` failed; (4)
whenever `setVersion` returns success, the activation pointer is afterwards a
link to the runtime binary of the version, also when `createComposerSymlink`
failed. -/
theorem tool_failure_not_fatal :
    (∀ (step : World → Str → Path → Option Err × World) (env : Env) (w : World) (version : Str),
        (installPHPWith step env w version).1 = (installPHP env w version).1)
      ∧ (∀ (link : FS → Str → Path → Option Err × FS) (env : Env) (fs : FS) (version : Str),
        (setVersionWith link env fs version).1 = (setVersion env fs version).1)
      ∧ (∀ (env : Env) (w : World) (version : Str) (homeDir : Path),
        env.home = some homeDir → (installPHP env w version).1 = none →
        ∃ n, Stat (installPHP env w version).2.fs (phpBinaryOf homeDir version) = .ok n)
      ∧ (∀ (env : Env) (fs : FS) (version : Str) (homeDir : Path),
        env.home = some homeDir → (setVersion env fs version).1 = none →
        Lstat (setVersion env fs version).2 (pointerOf homeDir)
          = .ok (.link (phpBinaryOf homeDir version))) := by
  refine ⟨fun step env w version => installPHPWith_result _ _ env w version,
    fun link env fs version => setVersionWith_result _ _ env fs version, ?_, ?_⟩
  · intro env w version homeDir hh hok
    exact installPHPWith_keeps (installComposer env)
      (fun w a b => installComposer_extends env w a b) env w version homeDir hh hok
  · intro env fs version homeDir hh hok
    obtain ⟨homeDir2, fs1, fs2, fs3, hh2, _, _, _, hsl, htail⟩ :=
      setVersionWith_ok (createComposerSymlink env) env fs version hok
    have : homeDir2 = homeDir := by rw [hh] at hh2; exact (Option.some.inj hh2).symm
    subst this
    have hp3 := Symlink_walk hsl
    have hptr : pointerOf homeDir2 = Clean (binDirOf homeDir2) ++ ["php".toList] := Join_php _
    obtain ⟨p5, hp5, hkp⟩ := htail (Clean (binDirOf homeDir2)) _
      (fun m h => createComposerSymlink_walk env fs3 version _ _ m h)
      (by rw [← hptr]; exact hp3)
    rw [← hptr] at hp5
    have e1 := sameKind_link hkp
    subst e1
    unfold Lstat setVersion
    rw [hp5]

set_option maxRecDepth 100000 in
theorem tool_failure_not_fatal_witness :
    ((∃ n, Stat (installPHP (devEnv phpOnlyNet) freshWorld "8.4.1".toList).2.fs
          (phpBinaryOf devHome "8.4.1".toList) = .ok n)
        ∧ Stat (installPHP (devEnv phpOnlyNet) freshWorld "8.4.1".toList).2.fs
          (composerScriptOf devHome "8.4.1".toList) = .error .ENOENT)
      ∧ (Lstat (setVersion (devEnv fullNet) twoVersionsFS "8.4.1".toList).2 (pointerOf devHome)
          = .ok (.link (phpBinaryOf devHome "8.4.1".toList))
        ∧ Stat (setVersion (devEnv fullNet) twoVersionsFS "8.4.1".toList).2
          (Join (binDirOf devHome) ["composer".toList]) = .error .ENOENT) :=
  ⟨⟨tool_failure_not_fatal.2.2.1 (devEnv phpOnlyNet) freshWorld "8.4.1".toList devHome rfl
      (by decide), by decide⟩,
    ⟨tool_failure_not_fatal.2.2.2 (devEnv fullNet) twoVersionsFS "8.4.1".toList devHome rfl
      (by decide), by decide⟩⟩

/-! ## The shell startup files: `addToPath` -/

/-- Where the scanner of `isPathAlreadyAdded` gives up: a line of 65536 bytes
stands before the export line, `bufio.Scanner` stops there with an error that
the function does not look at, and `addToPath` appends the export to a file
that already contains it.  The function's doc comment ("checks if the phpvm
bin directory is already in the shell configuration file") promises
otherwise. -/
theorem addToPath_long_line_appends_again :
    mentionsExport devBin longBashrc = true
      ∧ Stat (addToPath (devEnv fullNet) (bashrcOnlyFS longBashrc) devBin).2
          (devHome ++ [".bashrc".toList]) = .ok (.file (appended longBashrc devBin)) :=
  ⟨mentionsExport_long 65536 devBin (by decide),
    addToPath_bashrcOnly longBashrc (by rw [scanLines_longBashrc]; rfl)⟩

set_option maxRecDepth 100000 in
/-- Where `isPathAlreadyAdded` cannot open the file: a `.bashrc` that the
process may write but not read already has the export; `os.Open` fails, the
function answers false, and every call of `addToPath` appends the comment and
the export once more. -/
theorem addToPath_unreadable_appends_again :
    Stat lockedShellFS (devHome ++ [".bashrc".toList]) = .ok (.unreadable doneBashrc)
      ∧ mentionsExport devBin doneBashrc = true
      ∧ isPathAlreadyAdded lockedShellFS (devHome ++ [".bashrc".toList]) devBin = false
      ∧ addToPath (devEnv fullNet) lockedShellFS devBin
          = ((true, none),
              freshFS ++ [(devHome ++ [".bashrc".toList],
                .unreadable (appended doneBashrc devBin))])
      ∧ Stat (addToPath (devEnv fullNet)
            (addToPath (devEnv fullNet) lockedShellFS devBin).2 devBin).2
          (devHome ++ [".bashrc".toList])
          = .ok (.unreadable (appended (appended doneBashrc devBin) devBin)) := by
  decide

/-- With a home directory, `isVersionInstalled` answers true exactly when
`os.Stat` of the runtime binary does not fail with not-exist, and the check of
`installPHP` passes exactly when `os.Stat` succeeds; so the two agree when
`os.Stat` succeeds and when it reports not-exist. -/
theorem isVersionInstalled_spec (env : Env) (fs : FS) (version : Str) (homeDir : Path)
    (hh : env.home = some homeDir) :
    (isVersionInstalled env fs version = true
        ↔ Stat fs (phpBinaryOf homeDir version) ≠ .error .ENOENT)
      ∧ (alreadyInstalled fs homeDir version = true
        ↔ ∃ n, Stat fs (phpBinaryOf homeDir version) = .ok n)
      ∧ ((∃ n, Stat fs (phpBinaryOf homeDir version) = .ok n)
          ∨ Stat fs (phpBinaryOf homeDir version) = .error .ENOENT →
        isVersionInstalled env fs version = alreadyInstalled fs homeDir version) := by
  have hiv : isVersionInstalled env fs version
      = !IsNotExist (Stat fs (phpBinaryOf homeDir version)) := by
    unfold isVersionInstalled phpBinaryOf installDirOf
    rw [hh]
    dsimp only
    cases IsNotExist (Stat fs (Join (Join homeDir [".phpvm".toList, "versions".toList,
      version]) ["php".toList])) <;> rfl
  rw [hiv]
  unfold alreadyInstalled
  cases hst : Stat fs (phpBinaryOf homeDir version) with
  | ok n => simp [IsNotExist]
  | error e => cases e <;> simp [IsNotExist]

/-- The check of `installPHP` decides its branch: for a catalog version on a
supported architecture, `installPHP` returns success without creating the
install directory or fetching the runtime when the check passes, and goes on
to `os.MkdirAll` of the install directory when it does not. -/
theorem installPHP_branch (env : Env) (w : World) (version : Str) (pv : PHPVersion)
    (homeDir : Path) (hv : findVersion version env.phpCatalog = some pv)
    (harch : env.arch = "amd64".toList ∨ env.arch = "arm64".toList)
    (hh : env.home = some homeDir) :
    (alreadyInstalled w.fs homeDir version = true →
        installPHP env w version = (none, w)
          ∨ installPHP env w version
            = (none, (installComposer env w pv.Version (installDirOf homeDir version)).2))
      ∧ (alreadyInstalled w.fs homeDir version = false →
        ∀ e, MkdirAll w.fs (installDirOf homeDir version) = .error e →
          installPHP env w version = (some (.createInstallDir e), w)) := by
  have heq := installPHPWith_eq (installComposer env) env w version pv homeDir hv harch hh
  unfold alreadyInstalled
  constructor
  · intro h
    cases hst : Stat w.fs (phpBinaryOf homeDir version) with
    | error e => rw [hst] at h; cases h
    | ok n =>
      rw [hst] at heq
      cases hsc : Stat w.fs (composerScriptOf homeDir version) with
      | ok m =>
        left
        unfold installPHP
        rw [heq, hsc]
      | error e =>
        right
        unfold installPHP
        rw [heq, hsc]
  · intro h e hmk
    cases hst : Stat w.fs (phpBinaryOf homeDir version) with
    | ok n => rw [hst] at h; cases h
    | error e2 =>
      rw [hst] at heq
      unfold installPHP
      rw [heq, hmk]

set_option maxRecDepth 100000 in
/-- C11, at the failing input: `~/.phpvm/versions/8.4.1` is a regular file, so
`os.Stat` of `~/.phpvm/versions/8.4.1/php` fails with `ENOTDIR`, an error other
than not-exist.  `isVersionInstalled("8.4.1")` answers true, while the
already-installed check of `installPHP` does not pass: `installPHP("8.4.1")`
takes the install branch and fails in `os.MkdirAll`. -/
theorem isVersionInstalled_differs_from_install_check :
    Stat blockedFS (phpBinaryOf devHome "8.4.1".toList) = .error .ENOTDIR
      ∧ isVersionInstalled (devEnv fullNet) blockedFS "8.4.1".toList = true
      ∧ alreadyInstalled blockedFS devHome "8.4.1".toList = false
      ∧ installPHP (devEnv fullNet) blockedWorld "8.4.1".toList
          = (some (.createInstallDir .ENOTDIR), blockedWorld) := by
  decide

/-! ## The architecture check of `installPHP` -/

theorem findVersion_of_mem (version : Str) (catalog : List PHPVersion)
    (h : ∃ e ∈ catalog, e.Version = version) :
    ∃ pv, findVersion version catalog = some pv := by
  induction catalog with
  | nil =>
    obtain ⟨e, he, _⟩ := h
    cases he
  | cons d rest ih =>
    by_cases hd : d.Version = version
    · exact ⟨d, by simp [findVersion, hd]⟩
    · obtain ⟨e, he, hev⟩ := h
      have hin : e ∈ rest := by
        rcases List.mem_cons.1 he with x | x
        · exact absurd (x ▸ hev) hd
        · exact x
      obtain ⟨pv, hpv⟩ := ih ⟨e, hin, hev⟩
      exact ⟨pv, by simp [findVersion, hd, hpv]⟩

set_option maxRecDepth 100000 in
/-- C12, counterexample: the catalog entry for 8.4.1 has an empty download
URL for amd64 and the machine is amd64.  On a fresh machine `installPHP` does
not return the unsupported-architecture error: it creates the install
directory, asks the network for the empty URL and fails with the download
error.  On a machine where 8.4.1 is already installed it returns success. -/
theorem installPHP_empty_url_not_rejected :
    (installPHP armOnlyEnv freshWorld "8.4.1".toList).1 = some (.downloadPHP .http)
      ∧ Lstat freshFS (installDirOf devHome "8.4.1".toList) = .error .ENOENT
      ∧ Lstat (installPHP armOnlyEnv freshWorld "8.4.1".toList).2.fs
          (installDirOf devHome "8.4.1".toList) = .ok .dir
      ∧ (installPHP armOnlyEnv freshWorld "8.4.1".toList).2.fetched = [[]]
      ∧ (installPHP armOnlyEnv activeWorld "8.4.1".toList).1 = none := by
  decide

/-- C12, as amended: for every version of the runtime catalog and every
architecture other than `amd64` and `arm64`, `installPHP` returns the
unsupported-architecture error and leaves the world as it was: it creates no
directory and asks the network for nothing. -/
theorem installPHP_unsupported_arch (env : Env) (w : World) (version : Str)
    (hcat : ∃ e ∈ env.phpCatalog, e.Version = version)
    (h1 : env.arch ≠ "amd64".toList) (h2 : env.arch ≠ "arm64".toList) :
    installPHP env w version = (some (.unsupportedArch env.arch), w) := by
  obtain ⟨pv, hpv⟩ := findVersion_of_mem version env.phpCatalog hcat
  unfold installPHP installPHPWith
  rw [hpv]
  dsimp only
  rw [if_neg h1, if_neg h2]

set_option maxRecDepth 100000 in
theorem installPHP_unsupported_arch_witness :
    installPHP riscvEnv freshWorld "8.4.1".toList
      = (some (.unsupportedArch "riscv64".toList), freshWorld) :=
  installPHP_unsupported_arch riscvEnv freshWorld "8.4.1".toList
    ⟨AvailableVersions.head (by decide), by decide, by decide⟩ (by decide) (by decide)

end Phpvm
